import Mathlib

/-!
Verification development for the tuzk task library.

The definitions below are a shallow embedding of the task state machine in
src/src/tuzk.ts (class Tuzk and class CompositeTuzk), the dependency-aware
task variant in src/src/tuzk/index.ts (class Tuzk with checkDependencies and
start), and the admission scheduler in src/src/tuzk/index.ts
(class TuzkManager).  Promises are modelled by explicit outcomes and a parked
continuation flag; the single logical thread of control is modelled by a
labelled small-step relation on a system state holding the task record and
the phase of its run call.
-/

set_option autoImplicit false

namespace TuzkSpec

/-- States of a task, mirroring the TuzkState enum of src/src/types.ts. -/
inductive TuzkState
  | pending
  | running
  | paused
  | success
  | failed
  | cancelled
deriving DecidableEq, Repr

/-- Error taxonomy of the library, mirroring src/src/errors.ts and the
cycle error thrown by TuzkManager.addDependency.  The runtime constructor
stands for an arbitrary error thrown by a runner. -/
inductive TuzkErr
  | invalidState
  | validation
  | cancelledE
  | neverE
  | cycle
  | depFailed (idx : Nat)
  | runtime (code : Nat)
deriving DecidableEq, Repr

/-- The mutable fields of class Tuzk in src/src/tuzk.ts.  The field
checkpointPromiseControl records whether a resolver and rejecter pair is
currently stored (null is modelled by false). -/
structure Tuzk where
  progress : ℚ
  shouldPause : Bool
  shouldCancel : Bool
  checkpointPromiseControl : Bool
  error : Option TuzkErr
  state : TuzkState
  result : Option Int
deriving DecidableEq, Repr

/-- A freshly constructed task: progress 0, both flags clear, no parked
continuation, state Pending, no error and no result. -/
def initTuzk : Tuzk :=
  ⟨0, false, false, false, none, .pending, none⟩

/-- Translation of Tuzk.isActive: the state is Running or Paused. -/
def Tuzk.isActive (t : Tuzk) : Bool :=
  match t.state with
  | .running | .paused => true
  | _ => false

/-- Translation of Tuzk.isFinished: the state is Success, Failed or
Cancelled. -/
def Tuzk.isFinished (t : Tuzk) : Bool :=
  match t.state with
  | .success | .failed | .cancelled => true
  | _ => false

/-- Translation of Tuzk.setProgress with the validateProgress guard: a value
outside the closed interval from 0 to 1 is a validation error, otherwise the
progress field is updated. -/
def Tuzk.setProgress (t : Tuzk) (p : ℚ) : Except TuzkErr Tuzk :=
  if p < 0 ∨ 1 < p then .error .validation
  else .ok { t with progress := p }

/-- Possible outcomes of one checkpoint call. -/
inductive CpResult
  | invalidState
  | rejectedValidation
  | rejectedCancelled
  | parked
  | resolved
deriving DecidableEq, Repr

/-- The body of the promise executor in Tuzk.checkpoint after the progress
update: the stale continuation reference is cleared, then shouldCancel is
checked before shouldPause, and otherwise the checkpoint resolves with the
state forced back to Running. -/
def Tuzk.checkpointCore (t : Tuzk) : Tuzk × CpResult :=
  let t1 := { t with checkpointPromiseControl := false }
  if t1.shouldCancel then
    ({ t1 with state := .cancelled }, .rejectedCancelled)
  else if t1.shouldPause then
    ({ t1 with state := .paused, checkpointPromiseControl := true }, .parked)
  else
    ({ t1 with state := .running }, .resolved)

/-- Translation of Tuzk.checkpoint: invoking it while the state is not
Running is an InvalidStateError; otherwise an out-of-range progress argument
rejects with a validation error, and the core cancel and pause checks run
after the progress update. -/
def Tuzk.checkpoint (t : Tuzk) (p : Option ℚ) : Tuzk × CpResult :=
  if t.state ≠ .running then (t, .invalidState)
  else
    match p with
    | some q =>
      match t.setProgress q with
      | .error _ => (t, .rejectedValidation)
      | .ok t1 => t1.checkpointCore
    | none => t.checkpointCore

/-- Translation of Tuzk.pause: only legal while active, where it records the
pause intent. -/
def Tuzk.pause (t : Tuzk) : Except TuzkErr Tuzk :=
  if t.isActive then .ok { t with shouldPause := true }
  else .error .invalidState

/-- Translation of Tuzk.resume.  The returned boolean tells whether a parked
continuation was resolved, which lets the suspended runner continue. -/
def Tuzk.resume (t : Tuzk) : Except TuzkErr (Tuzk × Bool) :=
  if t.isActive then
    let t1 := { t with shouldPause := false }
    if t1.state = .paused then
      if t1.checkpointPromiseControl = false then .error .neverE
      else .ok ({ t1 with checkpointPromiseControl := false, state := .running }, true)
    else .ok (t1, false)
  else .error .invalidState

/-- Translation of Tuzk.cancel: accepted while Running, Paused or already
Cancelled; it records the cancel intent and, when a continuation is parked,
that continuation is rejected with the cancellation error (the returned
boolean).  The stored continuation reference is not cleared here, exactly as
in the source. -/
def Tuzk.cancel (t : Tuzk) : Except TuzkErr (Tuzk × Bool) :=
  match t.state with
  | .running | .paused | .cancelled =>
    .ok ({ t with shouldCancel := true }, t.checkpointPromiseControl)
  | _ => .error .invalidState

/-- A deep embedding of a runner body as the sequence of actions it takes at
its own await points: return a value, throw an error, or call checkpoint
with an optional progress argument and continue. -/
inductive RunnerProg
  | ret (v : Int)
  | throwE (e : TuzkErr)
  | cp (p : Option ℚ) (k : RunnerProg)
deriving DecidableEq, Repr

deriving instance DecidableEq for Except

/-- Phase of one run call: the runner is executing with continuation k, the
runner is suspended inside a parked checkpoint, or the run promise has
settled with the given outcome. -/
inductive Phase
  | runningProg (k : RunnerProg)
  | parkedAt (k : RunnerProg)
  | done (r : Except TuzkErr Int)
deriving DecidableEq, Repr

/-- System state: the task record together with the phase of its run call. -/
structure Sys where
  task : Tuzk
  phase : Phase
deriving DecidableEq, Repr

/-- The success tail of Tuzk.run: the result is stored, progress is forced
to 1, the state becomes Success, and the finally block clears both intent
flags. -/
def Tuzk.runSuccess (t : Tuzk) (v : Int) : Tuzk :=
  { t with result := some v, progress := 1, state := .success,
           shouldCancel := false, shouldPause := false }

/-- The catch and finally blocks of Tuzk.run: the error is recorded, the
state becomes Cancelled exactly for the cancellation error and Failed
otherwise, and both intent flags are cleared. -/
def Tuzk.runCatch (t : Tuzk) (e : TuzkErr) : Tuzk :=
  { t with error := some e,
           state := if e = .cancelledE then .cancelled else .failed,
           shouldCancel := false, shouldPause := false }

/-- One synchronous burst of runner execution starting from action k.
Checkpoint rejections unwind through the runner to the catch block of run. -/
def progStep (t : Tuzk) (k : RunnerProg) : Sys :=
  match k with
  | .ret v => ⟨t.runSuccess v, .done (.ok v)⟩
  | .throwE e => ⟨t.runCatch e, .done (.error e)⟩
  | .cp p k1 =>
    match t.checkpoint p with
    | (t1, .resolved) => ⟨t1, .runningProg k1⟩
    | (t1, .parked) => ⟨t1, .parkedAt k1⟩
    | (t1, .rejectedCancelled) => ⟨t1.runCatch .cancelledE, .done (.error .cancelledE)⟩
    | (t1, .rejectedValidation) => ⟨t1.runCatch .validation, .done (.error .validation)⟩
    | (t1, .invalidState) => ⟨t1.runCatch .invalidState, .done (.error .invalidState)⟩

/-- The entry check of Tuzk.run: a call while the task is active rejects
with an InvalidStateError and changes nothing, otherwise the state is set to
Running and an initial checkpoint with progress 0 runs before the runner. -/
def Tuzk.runEnter (t : Tuzk) (prog : RunnerProg) : Except TuzkErr Sys :=
  if t.isActive then .error .invalidState
  else .ok (progStep { t with state := .running } (.cp (some 0) prog))

/-- Translation of Tuzk.run as a system state: an entry rejection settles
the run promise with the error while leaving the task untouched. -/
def Tuzk.run (t : Tuzk) (prog : RunnerProg) : Sys :=
  match t.runEnter prog with
  | .error e => ⟨t, .done (.error e)⟩
  | .ok s => s

/-- Labels of the small-step relation: one burst of runner execution, or an
external pause, resume or cancel call. -/
inductive Action
  | tau
  | pause
  | resume
  | cancel
deriving DecidableEq, Repr

/-- One step of the system.  External calls that the task rejects leave the
system unchanged (the exception surfaces at the external call site).  A
cancel that rejects a parked continuation unwinds the suspended runner into
the catch block of run in the same step. -/
def step (s : Sys) (a : Action) : Sys :=
  match a with
  | .tau =>
    match s.phase with
    | .runningProg k => progStep s.task k
    | _ => s
  | .pause =>
    match s.task.pause with
    | .ok t1 => ⟨t1, s.phase⟩
    | .error _ => s
  | .resume =>
    match s.task.resume with
    | .ok (t1, didResolve) =>
      if didResolve then
        match s.phase with
        | .parkedAt k => ⟨t1, .runningProg k⟩
        | ph => ⟨t1, ph⟩
      else ⟨t1, s.phase⟩
    | .error _ => s
  | .cancel =>
    match s.task.cancel with
    | .ok (t1, didReject) =>
      if didReject then
        match s.phase with
        | .parkedAt _ => ⟨t1.runCatch .cancelledE, .done (.error .cancelledE)⟩
        | ph => ⟨t1, ph⟩
      else ⟨t1, s.phase⟩
    | .error _ => s

/-- Iterated stepping over a list of actions. -/
def exec (s : Sys) : List Action → Sys
  | [] => s
  | a :: rest => exec (step s a) rest

namespace Old

/-- States of the dependency-aware task variant in src/src/tuzk/index.ts,
which has the extra Waiting state. -/
inductive State
  | pending
  | waiting
  | running
  | paused
  | success
  | failed
  | canceled
deriving DecidableEq, Repr

/-- Translation of isFinished of the dependency-aware variant. -/
def State.isFinished (s : State) : Bool :=
  s = .success ∨ s = .failed ∨ s = .canceled

/-- Translation of isFailed of the dependency-aware variant. -/
def State.isFailed (s : State) : Bool :=
  s = .failed

/-- Translation of isCanceled of the dependency-aware variant. -/
def State.isCanceled (s : State) : Bool :=
  s = .canceled

/-- Outcome of one checkDependencies pass over the dependency list: the
readiness promise is rejected with an error, resolved, or left pending. -/
inductive DepOutcome
  | rejected (e : TuzkErr)
  | resolved
  | waiting
deriving DecidableEq, Repr

/-- The loop body of Tuzk.checkDependencies in src/src/tuzk/index.ts.  The
accumulator keeps the first reject call issued on the promise (a promise
settles at its first resolve or reject) and the isAllSucceed flag, which the
source clears only for dependencies that are not finished. -/
def cdLoop : List State → Nat → Option TuzkErr → Bool → Option TuzkErr × Bool
  | [], _, firstReject, allFin => (firstReject, allFin)
  | st :: rest, i, firstReject, allFin =>
    if st.isFinished then
      if st.isFailed then
        cdLoop rest (i + 1) (firstReject.getD (.depFailed i) |> some) allFin
      else if st.isCanceled then
        cdLoop rest (i + 1) (firstReject.getD .cancelledE |> some) allFin
      else
        cdLoop rest (i + 1) firstReject allFin
    else
      cdLoop rest (i + 1) firstReject false

/-- Translation of Tuzk.checkDependencies: the dependencies are scanned in
order; a reject issued during the loop wins over the resolve issued after
the loop when every dependency is finished. -/
def checkDependencies (deps : List State) : DepOutcome :=
  match cdLoop deps 0 none true with
  | (some e, _) => .rejected e
  | (none, true) => .resolved
  | (none, false) => .waiting

/-- The catch block of Tuzk.start applied to a readiness rejection: the
dependent task ends Canceled exactly for the cancellation error and Failed
otherwise. -/
def startDepFailure (e : TuzkErr) : State :=
  if e = .cancelledE then .canceled else .failed

/-- The entry check of Tuzk.start in src/src/tuzk/index.ts: the call is
rejected exactly while the state is Waiting, Running or Paused. -/
def startRejects (s : State) : Bool :=
  s = .waiting ∨ s = .running ∨ s = .paused

end Old

/-!
Embedding of TuzkManager from src/src/tuzk/index.ts.  Tasks are identified
by natural numbers.  The per-task wrapper data (the dependency set installed
by wrapTuzk and the manager ownership tag) together with the task state live
in an environment indexed by task id; a single manager is modelled, so the
ownership tag is a boolean.  Calling run on a task is abstracted to setting
its state to Running; a task finishing is delivered to the manager as an
explicit event, mirroring the state-change listener installed by wrapTuzk.
-/

/-- Wrapper view of one task as seen by the manager. -/
structure MTask where
  wrapped : Bool
  deps : List Nat
  state : TuzkState
deriving DecidableEq, Repr

/-- An unwrapped pending task. -/
def initMTask : MTask :=
  ⟨false, [], .pending⟩

/-- Manager state: concurrency limit, pending queue, active set, finished
set (sets are kept as lists without duplicates) and the task environment. -/
structure TuzkManager where
  concurrency : Nat
  pendingQueue : List Nat
  activated : List Nat
  finished : List Nat
  tasks : Nat → MTask

/-- A fresh manager over an all-pending environment. -/
def initManager (conc : Nat) : TuzkManager :=
  ⟨conc, [], [], [], fun _ => initMTask⟩

/-- Pointwise update of the task environment. -/
def TuzkManager.setTask (m : TuzkManager) (id : Nat) (f : MTask → MTask) : TuzkManager :=
  { m with tasks := fun j => if j = id then f (m.tasks j) else m.tasks j }

/-- Set insertion for the list-encoded sets of the manager. -/
def insertIfAbsent (id : Nat) (l : List Nat) : List Nat :=
  if id ∈ l then l else l ++ [id]

/-- Translation of TuzkManager.wrapTuzk: the Object.assign call installs a
fresh empty dependency set unconditionally, and the task is tagged as owned
by this manager. -/
def TuzkManager.wrapTuzk (m : TuzkManager) (id : Nat) : TuzkManager :=
  m.setTask id (fun t => { t with wrapped := true, deps := [] })

/-- Translation of the areDependenciesMet closure installed by wrapTuzk:
every recorded dependency must be in the Success state. -/
def TuzkManager.areDependenciesMet (m : TuzkManager) (id : Nat) : Bool :=
  ((m.tasks id).deps).all (fun d => (m.tasks d).state = .success)

/-- Translation of the recursive canDependOn check inside
TuzkManager.addDependency.  The source recursion has no visited set and is
bounded here by explicit fuel; out of fuel the edge is refused, matching the
refusing branches of the source. -/
def TuzkManager.canDependOn (m : TuzkManager) : Nat → Nat → Nat → Bool
  | 0, _, _ => false
  | fuel + 1, task, dep =>
    if dep = task then false
    else if (m.tasks dep).wrapped = false then false
    else if dep ∈ (m.tasks dep).deps then false
    else ((m.tasks dep).deps).all (fun d => m.canDependOn fuel task d)

/-- Translation of TuzkManager.addDependency: the task is re-wrapped first
(resetting its recorded dependency set), then the cycle check runs, and only
on success is the new edge recorded.  The manager state after the call is
returned together with the error, so the mutations performed before a throw
are visible. -/
def TuzkManager.addDependency (m : TuzkManager) (fuel t d : Nat) : TuzkManager × Option TuzkErr :=
  let m1 := m.wrapTuzk t
  if m1.canDependOn fuel t d then
    (m1.setTask t (fun tk => { tk with deps := insertIfAbsent d tk.deps }), none)
  else
    (m1, some .cycle)

/-- The effect of task.run as observed by the manager: the task becomes
Running. -/
def TuzkManager.runTask (m : TuzkManager) (id : Nat) : TuzkManager :=
  m.setTask id (fun t => { t with state := .running })

/-- The dependency-attaching loop of TuzkManager.submit; the first failing
addDependency aborts the loop with the partial mutations kept. -/
def TuzkManager.addDepsLoop (fuel id : Nat) : TuzkManager → List Nat → TuzkManager × Option TuzkErr
  | m, [] => (m, none)
  | m, d :: rest =>
    match m.addDependency fuel id d with
    | (m1, some e) => (m1, some e)
    | (m1, none) => TuzkManager.addDepsLoop fuel id m1 rest

/-- Translation of TuzkManager.submit: the task is wrapped, removed from the
finished set, the given dependencies are attached, and then the task is
either merely tracked (already active), started immediately (spare
capacity), or appended to the pending queue. -/
def TuzkManager.submit (m : TuzkManager) (fuel id : Nat) (deps : List Nat) :
    TuzkManager × Option TuzkErr :=
  match TuzkManager.addDepsLoop fuel id
      { m.wrapTuzk id with finished := (m.wrapTuzk id).finished.erase id } deps with
  | (m3, some e) => (m3, some e)
  | (m3, none) =>
    if (m3.tasks id).state = .running ∨ (m3.tasks id).state = .paused then
      ({ m3 with activated := insertIfAbsent id m3.activated }, none)
    else if m3.activated.length < m3.concurrency then
      (({ m3 with activated := insertIfAbsent id m3.activated }).runTask id, none)
    else
      ({ m3 with pendingQueue := m3.pendingQueue ++ [id] }, none)

/-- The while loop of TuzkManager.tryActivatePendingTasks: the queue is
scanned in order while spare capacity remains; a task whose dependencies are
met is removed from the queue, added to the active set and started, and the
others are kept in place. -/
def TuzkManager.sweepGo : TuzkManager → List Nat → List Nat → TuzkManager
  | m, [], kept => { m with pendingQueue := kept.reverse }
  | m, id :: rest, kept =>
    if m.activated.length < m.concurrency then
      if m.areDependenciesMet id then
        TuzkManager.sweepGo
          (({ m with activated := insertIfAbsent id m.activated }).runTask id) rest kept
      else
        TuzkManager.sweepGo m rest (id :: kept)
    else
      { m with pendingQueue := kept.reverse ++ id :: rest }

/-- Translation of TuzkManager.tryActivatePendingTasks. -/
def TuzkManager.tryActivatePendingTasks (m : TuzkManager) : TuzkManager :=
  TuzkManager.sweepGo { m with pendingQueue := [] } m.pendingQueue []

/-- The terminal branch of the state-change listener installed by wrapTuzk:
when a tracked task reaches a terminal state it moves from the active set to
the finished set and an admission sweep runs. -/
def TuzkManager.onTaskFinished (m : TuzkManager) (id : Nat) (st : TuzkState) : TuzkManager :=
  TuzkManager.tryActivatePendingTasks
    { m.setTask id (fun t => { t with state := st }) with
        activated := (m.setTask id (fun t => { t with state := st })).activated.erase id,
        finished := insertIfAbsent id
          (m.setTask id (fun t => { t with state := st })).finished }

/-- Events driving the manager: a submit call, or a tracked task reaching a
terminal state. -/
inductive MgrEvent
  | submitEv (id : Nat) (deps : List Nat)
  | finishEv (id : Nat) (st : TuzkState)
deriving DecidableEq, Repr

/-- One manager event.  Only terminal states fire the finished branch of the
listener, as in the source. -/
def mgrStep (fuel : Nat) (m : TuzkManager) : MgrEvent → TuzkManager
  | .submitEv id deps => (m.submit fuel id deps).1
  | .finishEv id st =>
    if st = .success ∨ st = .failed ∨ st = .cancelled then m.onTaskFinished id st
    else m

/-- Iterated manager events. -/
def mgrExec (fuel : Nat) : TuzkManager → List MgrEvent → TuzkManager
  | m, [] => m
  | m, e :: rest => mgrExec fuel (mgrStep fuel m e) rest

/-!
Embedding of CompositeTuzk from src/src/tuzk.ts.  The composite applies the
operation to itself through the superclass method and then loops over the
child tasks; an exception thrown by a child stops the loop and propagates,
leaving the later children untouched.
-/

/-- The child loop of CompositeTuzk.pause: each child is paused in order
until one of them throws. -/
def pauseChildren : List Tuzk → List Tuzk × Option TuzkErr
  | [] => ([], none)
  | c :: rest =>
    match c.pause with
    | .ok c1 =>
      match pauseChildren rest with
      | (rest1, e) => (c1 :: rest1, e)
    | .error e => (c :: rest, some e)

/-- The child loop of CompositeTuzk.resume. -/
def resumeChildren : List Tuzk → List Tuzk × Option TuzkErr
  | [] => ([], none)
  | c :: rest =>
    match c.resume with
    | .ok (c1, _) =>
      match resumeChildren rest with
      | (rest1, e) => (c1 :: rest1, e)
    | .error e => (c :: rest, some e)

/-- The child loop of CompositeTuzk.cancel. -/
def cancelChildren : List Tuzk → List Tuzk × Option TuzkErr
  | [] => ([], none)
  | c :: rest =>
    match c.cancel with
    | .ok (c1, _) =>
      match cancelChildren rest with
      | (rest1, e) => (c1 :: rest1, e)
    | .error e => (c :: rest, some e)

/-- Translation of CompositeTuzk.pause: first the superclass pause on the
composite itself, then the fan-out over the children. -/
def CompositeTuzk.pause (t : Tuzk) (subtasks : List Tuzk) :
    (Tuzk × List Tuzk) × Option TuzkErr :=
  match t.pause with
  | .error e => ((t, subtasks), some e)
  | .ok t1 =>
    match pauseChildren subtasks with
    | (cs, e) => ((t1, cs), e)

/-- Translation of CompositeTuzk.resume. -/
def CompositeTuzk.resume (t : Tuzk) (subtasks : List Tuzk) :
    (Tuzk × List Tuzk) × Option TuzkErr :=
  match t.resume with
  | .error e => ((t, subtasks), some e)
  | .ok (t1, _) =>
    match resumeChildren subtasks with
    | (cs, e) => ((t1, cs), e)

/-- Translation of CompositeTuzk.cancel. -/
def CompositeTuzk.cancel (t : Tuzk) (subtasks : List Tuzk) :
    (Tuzk × List Tuzk) × Option TuzkErr :=
  match t.cancel with
  | .error e => ((t, subtasks), some e)
  | .ok (t1, _) =>
    match cancelChildren subtasks with
    | (cs, e) => ((t1, cs), e)

/-- Reachability through the recorded dependency sets: ReachesIn m n a b
holds when b is reachable from a in at most n edges, each edge going from a
task to one of its recorded dependencies. -/
inductive ReachesIn (m : TuzkManager) : Nat → Nat → Nat → Prop
  | direct {a b : Nat} : b ∈ (m.tasks a).deps → ReachesIn m 1 a b
  | trans {a b c : Nat} {n : Nat} : c ∈ (m.tasks a).deps → ReachesIn m n c b →
      ReachesIn m (n + 1) a b

/-!
Helper lemmas.
-/

theorem isActive_iff (t : Tuzk) :
    t.isActive = true ↔ (t.state = .running ∨ t.state = .paused) := by
  cases h : t.state <;> simp [Tuzk.isActive, h]

theorem isFinished_iff (t : Tuzk) :
    t.isFinished = true ↔
      (t.state = .success ∨ t.state = .failed ∨ t.state = .cancelled) := by
  cases h : t.state <;> simp [Tuzk.isFinished, h]

/-- A progress argument that passes validateProgress. -/
def progressOk (p : Option ℚ) : Prop :=
  ∀ q, p = some q → 0 ≤ q ∧ q ≤ 1

/--
C1: checkpoint(progress?) may be invoked only while the state is Running
(otherwise an invalid-action error); while Running, an out-of-range progress
argument is a validation error, an in-range one is applied, then the cancel
check runs before the pause check: shouldCancel sends the task to Cancelled
rejecting the checkpoint, else shouldPause parks the continuation in Paused,
else the checkpoint resolves with the task Running.
-/
theorem C1_checkpoint_protocol (t : Tuzk) (p : Option ℚ) :
    (t.state ≠ .running → t.checkpoint p = (t, .invalidState)) ∧
    (∀ q, p = some q → (q < 0 ∨ 1 < q) → t.state = .running →
      t.checkpoint p = (t, .rejectedValidation)) ∧
    (t.state = .running → progressOk p → ∀ q, p = some q →
      (t.checkpoint p).1.progress = q) ∧
    (t.state = .running → progressOk p → t.shouldCancel = true →
      (t.checkpoint p).2 = .rejectedCancelled ∧
      (t.checkpoint p).1.state = .cancelled ∧
      (t.checkpoint p).1.checkpointPromiseControl = false) ∧
    (t.state = .running → progressOk p → t.shouldCancel = false →
      t.shouldPause = true →
      (t.checkpoint p).2 = .parked ∧
      (t.checkpoint p).1.state = .paused ∧
      (t.checkpoint p).1.checkpointPromiseControl = true) ∧
    (t.state = .running → progressOk p → t.shouldCancel = false →
      t.shouldPause = false →
      (t.checkpoint p).2 = .resolved ∧
      (t.checkpoint p).1.state = .running) := by
  refine ⟨?_, ?_, ?_, ?_, ?_, ?_⟩
  · intro h
    simp [Tuzk.checkpoint, h]
  · rintro q rfl hbad hrun
    have hlt : q < 0 ∨ 1 < q := hbad
    simp only [Tuzk.checkpoint, hrun, ne_eq, not_true_eq_false, if_false,
      Tuzk.setProgress, if_pos hlt]
  · rintro hrun hok q rfl
    have hq := hok q rfl
    have hnot : ¬(q < 0 ∨ 1 < q) := by
      push_neg
      exact hq
    by_cases hc : t.shouldCancel = true <;>
      by_cases hp : t.shouldPause = true <;>
        simp [Tuzk.checkpoint, hrun, Tuzk.setProgress, hnot, Tuzk.checkpointCore, hc, hp]
  · intro hrun hok hc
    rcases p with _ | q
    · simp [Tuzk.checkpoint, hrun, Tuzk.checkpointCore, hc]
    · have hq := hok q rfl
      have hnot : ¬(q < 0 ∨ 1 < q) := by
        push_neg
        exact hq
      simp [Tuzk.checkpoint, hrun, Tuzk.setProgress, hnot, Tuzk.checkpointCore, hc]
  · intro hrun hok hc hp
    rcases p with _ | q
    · simp [Tuzk.checkpoint, hrun, Tuzk.checkpointCore, hc, hp]
    · have hq := hok q rfl
      have hnot : ¬(q < 0 ∨ 1 < q) := by
        push_neg
        exact hq
      simp [Tuzk.checkpoint, hrun, Tuzk.setProgress, hnot, Tuzk.checkpointCore, hc, hp]
  · intro hrun hok hc hp
    rcases p with _ | q
    · simp [Tuzk.checkpoint, hrun, Tuzk.checkpointCore, hc, hp]
    · have hq := hok q rfl
      have hnot : ¬(q < 0 ∨ 1 < q) := by
        push_neg
        exact hq
      simp [Tuzk.checkpoint, hrun, Tuzk.setProgress, hnot, Tuzk.checkpointCore, hc, hp]

/-- Witness for C1 at a concrete Running task with both intent flags set:
the cancel check wins over the pause check. -/
theorem C1_checkpoint_protocol_witness :
    (Tuzk.checkpoint ⟨0, true, true, false, none, .running, none⟩ (some (1 / 2))).2 =
        .rejectedCancelled ∧
      (Tuzk.checkpoint ⟨0, true, true, false, none, .running, none⟩ (some (1 / 2))).1.state =
        .cancelled ∧
      (Tuzk.checkpoint
          ⟨0, true, true, false, none, .running, none⟩ (some (1 / 2))).1.checkpointPromiseControl =
        false :=
  (C1_checkpoint_protocol ⟨0, true, true, false, none, .running, none⟩ (some (1 / 2))).2.2.2.1
    rfl (by rintro q hq; cases hq; constructor <;> norm_num) rfl

/-- The properties the spec requires of a task at the moment its run promise
settles with outcome r. -/
def SettledOk (t : Tuzk) (r : Except TuzkErr Int) : Prop :=
  t.shouldPause = false ∧ t.shouldCancel = false ∧
    (∀ v, r = .ok v → t.state = .success ∧ t.progress = 1 ∧ t.result = some v) ∧
    (∀ e, r = .error e →
      t.error = some e ∧ t.state = (if e = .cancelledE then .cancelled else .failed))

theorem settledOk_runSuccess (t : Tuzk) (v : Int) :
    SettledOk (t.runSuccess v) (.ok v) := by
  refine ⟨rfl, rfl, ?_, ?_⟩
  · rintro w hw
    cases hw
    exact ⟨rfl, rfl, rfl⟩
  · rintro e he
    cases he

theorem settledOk_runCatch (t : Tuzk) (e : TuzkErr) :
    SettledOk (t.runCatch e) (.error e) := by
  refine ⟨rfl, rfl, ?_, ?_⟩
  · rintro v hv
    cases hv
  · rintro f hf
    cases hf
    exact ⟨rfl, rfl⟩

theorem settledOk_progStep (t : Tuzk) (k : RunnerProg) (r : Except TuzkErr Int)
    (h : (progStep t k).phase = .done r) : SettledOk (progStep t k).task r := by
  cases k with
  | ret v =>
    have hr : Except.ok v = r := by
      simpa [progStep] using h
    simpa [progStep, ← hr] using settledOk_runSuccess t v
  | throwE e =>
    have hr : Except.error e = r := by
      simpa [progStep] using h
    simpa [progStep, ← hr] using settledOk_runCatch t e
  | cp p k1 =>
    rcases hcp : t.checkpoint p with ⟨t1, c⟩
    cases c <;> simp [progStep, hcp] at h ⊢ <;>
      first
        | (cases h; exact settledOk_runCatch t1 _)
        | exact absurd h (by simp)

/--
C2: when run() is invoked from a valid starting state, the run promise can
settle only with the properties the spec demands: a normal return forces
progress to 1, state Success and stores the result; a thrown error is
recorded, yielding Cancelled exactly for the cancellation error and Failed
otherwise; and on every settling path both intent flags are cleared.  The
first conjunct covers every settling transition of the step relation, the
second the settlement inside the run call itself.
-/
theorem C2_run_settlement :
    (∀ (s : Sys) (a : Action) (r : Except TuzkErr Int),
      (∀ x, s.phase ≠ .done x) → (step s a).phase = .done r →
      SettledOk (step s a).task r) ∧
    (∀ (t : Tuzk) (prog : RunnerProg) (r : Except TuzkErr Int),
      t.isActive = false → (Tuzk.run t prog).phase = .done r →
      SettledOk (Tuzk.run t prog).task r) := by
  constructor
  · intro s a r hnd h
    obtain ⟨t, ph⟩ := s
    have hnd1 : ∀ x, ph ≠ Phase.done x := hnd
    cases a with
    | tau =>
      cases ph with
      | runningProg k => exact settledOk_progStep t k r h
      | parkedAt k => simp [step] at h
      | done x => exact absurd rfl (hnd1 x)
    | pause =>
      rcases hp : t.pause with e | t1 <;> simp only [step, hp] at h <;>
        exact absurd h (hnd1 r)
    | resume =>
      rcases hp : t.resume with e | ⟨t1, b⟩
      · simp only [step, hp] at h
        exact absurd h (hnd1 r)
      · cases b with
        | false =>
          have h2 : ph = Phase.done r := by simpa [step, hp] using h
          exact absurd h2 (hnd1 r)
        | true =>
          cases ph with
          | runningProg k =>
            have h2 : Phase.runningProg k = Phase.done r := by simpa [step, hp] using h
            exact absurd h2 (by simp)
          | parkedAt k => simp [step, hp] at h
          | done x => exact absurd rfl (hnd1 x)
    | cancel =>
      rcases hp : t.cancel with e | ⟨t1, b⟩
      · simp only [step, hp] at h
        exact absurd h (hnd1 r)
      · cases b with
        | false =>
          have h2 : ph = Phase.done r := by simpa [step, hp] using h
          exact absurd h2 (hnd1 r)
        | true =>
          cases ph with
          | runningProg k =>
            have h2 : Phase.runningProg k = Phase.done r := by simpa [step, hp] using h
            exact absurd h2 (by simp)
          | parkedAt k =>
            simp only [step, hp, if_pos rfl] at h ⊢
            injection h with h1
            subst h1
            exact settledOk_runCatch t1 .cancelledE
          | done x => exact absurd rfl (hnd1 x)
  · intro t prog r hact h
    rw [Tuzk.run, Tuzk.runEnter, if_neg (by simp [hact])] at h ⊢
    exact settledOk_progStep _ _ _ h

/-- Witness for C2: a pending task whose cancel intent is still armed is run
and the initial checkpoint settles the run promise with the cancellation
error; the settled task satisfies every property of the claim. -/
theorem C2_run_settlement_witness :
    Tuzk.isActive ⟨0, false, true, false, none, .pending, none⟩ = false ∧
      SettledOk (Tuzk.run ⟨0, false, true, false, none, .pending, none⟩ (.ret 0)).task
        (.error .cancelledE) :=
  ⟨rfl,
    C2_run_settlement.2 ⟨0, false, true, false, none, .pending, none⟩ (.ret 0)
      (.error .cancelledE) rfl (by decide)⟩

/--
C3: cancel() is accepted exactly while the task is Running, Paused or
already Cancelled and raises an invalid-action error in every other state;
an accepted cancel sets shouldCancel and reports whether a parked
continuation was rejected; and a cancel on a task parked in Paused settles
the run promise with the cancellation error and moves the task to Cancelled
in that very step, with no resume and no further checkpoint in between.
-/
theorem C3_cancel_semantics :
    (∀ t : Tuzk,
      ((t.state = .running ∨ t.state = .paused ∨ t.state = .cancelled) →
        t.cancel = .ok ({ t with shouldCancel := true }, t.checkpointPromiseControl)) ∧
      (¬(t.state = .running ∨ t.state = .paused ∨ t.state = .cancelled) →
        t.cancel = .error .invalidState)) ∧
    (∀ (s : Sys) (k : RunnerProg),
      s.phase = .parkedAt k → s.task.state = .paused →
      s.task.checkpointPromiseControl = true →
      (step s .cancel).phase = .done (.error .cancelledE) ∧
      (step s .cancel).task.state = .cancelled ∧
      (step s .cancel).task.error = some .cancelledE) := by
  constructor
  · intro t
    constructor
    · intro h
      rcases h with h | h | h <;> simp [Tuzk.cancel, h]
    · intro h
      cases hs : t.state <;> simp [hs] at h ⊢ <;> simp [Tuzk.cancel, hs]
  · intro s k hph hst hctl
    obtain ⟨t, ph⟩ := s
    simp only at hph hst hctl
    subst hph
    have hc : t.cancel = .ok ({ t with shouldCancel := true }, true) := by
      rw [Tuzk.cancel]
      cases h2 : t.state <;> simp [h2] at hst ⊢
      exact hctl
    simp [step, hc, Tuzk.runCatch]

/-- Witness for C3: cancelling a concrete task parked in Paused settles its
run promise with the cancellation error at once. -/
theorem C3_cancel_semantics_witness :
    (step ⟨⟨0, true, false, true, none, .paused, none⟩, .parkedAt (.ret 0)⟩ .cancel).phase =
        .done (.error .cancelledE) ∧
      (step ⟨⟨0, true, false, true, none, .paused, none⟩, .parkedAt (.ret 0)⟩ .cancel).task.state =
        .cancelled ∧
      (step ⟨⟨0, true, false, true, none, .paused, none⟩, .parkedAt (.ret 0)⟩ .cancel).task.error =
        some .cancelledE :=
  C3_cancel_semantics.2 ⟨⟨0, true, false, true, none, .paused, none⟩, .parkedAt (.ret 0)⟩
    (.ret 0) rfl rfl rfl

/-- The phase-indexed invariant linking the stored continuation reference
and the task state along any execution of one run call. -/
def SysInv (s : Sys) : Prop :=
  match s.phase with
  | .runningProg _ => s.task.state = .running ∧ s.task.checkpointPromiseControl = false
  | .parkedAt _ => s.task.state = .paused ∧ s.task.checkpointPromiseControl = true
  | .done _ => s.task.isFinished = true ∧
      (s.task.checkpointPromiseControl = true → s.task.state = .cancelled)

theorem sysInv_progStep (t : Tuzk) (k : RunnerProg)
    (hst : t.state = .running) (hctl : t.checkpointPromiseControl = false) :
    SysInv (progStep t k) := by
  cases k with
  | ret v => simp [progStep, SysInv, Tuzk.runSuccess, Tuzk.isFinished, hctl]
  | throwE e =>
    by_cases he : e = .cancelledE <;>
      simp [progStep, SysInv, Tuzk.runCatch, Tuzk.isFinished, hctl, he]
  | cp p k1 =>
    rcases p with _ | q
    · by_cases hc : t.shouldCancel = true <;> by_cases hp2 : t.shouldPause = true <;>
        simp [progStep, Tuzk.checkpoint, hst, Tuzk.checkpointCore, hc, hp2, SysInv,
          Tuzk.runCatch, Tuzk.isFinished]
    · by_cases hv : q < 0 ∨ 1 < q
      · simp [progStep, Tuzk.checkpoint, hst, Tuzk.setProgress, hv, SysInv,
          Tuzk.runCatch, Tuzk.isFinished, hctl]
      · by_cases hc : t.shouldCancel = true <;> by_cases hp2 : t.shouldPause = true <;>
          simp [progStep, Tuzk.checkpoint, hst, Tuzk.setProgress, hv, Tuzk.checkpointCore,
            hc, hp2, SysInv, Tuzk.runCatch, Tuzk.isFinished]

theorem sysInv_run (t : Tuzk) (prog : RunnerProg) (h : t.isActive = false) :
    SysInv (Tuzk.run t prog) := by
  rw [Tuzk.run, Tuzk.runEnter, if_neg (by simp [h])]
  have hz1 : ¬((0 : ℚ) < 0) := by norm_num
  have hz2 : ¬((1 : ℚ) < 0) := by norm_num
  by_cases hc : t.shouldCancel = true <;> by_cases hp2 : t.shouldPause = true <;>
    simp [progStep, Tuzk.checkpoint, Tuzk.setProgress, hz1, hz2, Tuzk.checkpointCore,
      hc, hp2, SysInv, Tuzk.runCatch, Tuzk.isFinished]

theorem sysInv_step (s : Sys) (a : Action) (h : SysInv s) : SysInv (step s a) := by
  obtain ⟨t, ph⟩ := s
  cases a with
  | tau =>
    cases ph with
    | runningProg k =>
      obtain ⟨hst, hctl⟩ := h
      exact sysInv_progStep t k hst hctl
    | parkedAt k => exact h
    | done x => exact h
  | pause =>
    rcases hp : t.pause with e | t1
    · simpa [step, hp] using h
    · have ht1 : t1 = { t with shouldPause := true } := by
        by_cases hact : t.isActive = true <;> simp [Tuzk.pause, hact] at hp
        exact hp.symm
      subst ht1
      cases ph with
      | runningProg k => simpa [step, hp, SysInv] using h
      | parkedAt k => simpa [step, hp, SysInv] using h
      | done x => simpa [step, hp, SysInv, Tuzk.isFinished] using h
  | resume =>
    rcases hr : t.resume with e | ⟨t1, b⟩
    · simpa [step, hr] using h
    · cases ph with
      | runningProg k =>
        have hst : t.state = .running := h.1
        have hctl : t.checkpointPromiseControl = false := h.2
        have hres : t.resume = .ok ({ t with shouldPause := false }, false) := by
          rw [Tuzk.resume, if_pos (by rw [isActive_iff]; exact Or.inl hst),
            if_neg (by simp [hst])]
        rw [hres] at hr
        injection hr with hr2
        injection hr2 with he1 he2
        subst he1
        subst he2
        simp [step, hres, SysInv, hst, hctl]
      | parkedAt k =>
        have hst : t.state = .paused := h.1
        have hctl : t.checkpointPromiseControl = true := h.2
        have hres : t.resume =
            .ok ({ t with shouldPause := false, checkpointPromiseControl := false,
                          state := .running }, true) := by
          rw [Tuzk.resume, if_pos (by rw [isActive_iff]; exact Or.inr hst),
            if_pos (by simp [hst]), if_neg (by simp [hctl])]
        rw [hres] at hr
        injection hr with hr2
        injection hr2 with he1 he2
        subst he1
        subst he2
        simp [step, hres, SysInv]
      | done x =>
        have hfin : t.isFinished = true := h.1
        have hres : t.resume = .error .neverE ∨ t.resume = .error .invalidState := by
          right
          rw [Tuzk.resume, if_neg]
          rw [isActive_iff]
          rw [isFinished_iff] at hfin
          rcases hfin with h1 | h1 | h1 <;> simp [h1]
        rcases hres with h2 | h2 <;> rw [h2] at hr <;> cases hr
  | cancel =>
    rcases hc : t.cancel with e | ⟨t1, b⟩
    · simpa [step, hc] using h
    · cases ph with
      | runningProg k =>
        have hst : t.state = .running := h.1
        have hctl : t.checkpointPromiseControl = false := h.2
        have hres : t.cancel = .ok ({ t with shouldCancel := true }, false) := by
          rw [Tuzk.cancel, hst, hctl]
        rw [hres] at hc
        injection hc with hc2
        injection hc2 with he1 he2
        subst he1
        subst he2
        simp [step, hres, SysInv, hst, hctl]
      | parkedAt k =>
        have hst : t.state = .paused := h.1
        have hctl : t.checkpointPromiseControl = true := h.2
        have hres : t.cancel = .ok ({ t with shouldCancel := true }, true) := by
          rw [Tuzk.cancel, hst, hctl]
        rw [hres] at hc
        injection hc with hc2
        injection hc2 with he1 he2
        subst he1
        subst he2
        simp [step, hres, SysInv, Tuzk.runCatch, Tuzk.isFinished, hctl]
      | done x =>
        have hfin : t.isFinished = true := h.1
        have himp : t.checkpointPromiseControl = true → t.state = .cancelled := h.2
        have hfin2 := hfin
        rw [isFinished_iff] at hfin2
        rcases hfin2 with h1 | h1 | h1
        · rw [Tuzk.cancel, h1] at hc
          cases hc
        · rw [Tuzk.cancel, h1] at hc
          cases hc
        · have hres : t.cancel =
              .ok ({ t with shouldCancel := true }, t.checkpointPromiseControl) := by
            rw [Tuzk.cancel, h1]
          rw [hres] at hc
          injection hc with hc2
          injection hc2 with he1 he2
          subst he1
          cases hb : t.checkpointPromiseControl with
          | false =>
            rw [hb] at he2
            subst he2
            simp [step, hres, SysInv, Tuzk.isFinished, h1, hb]
          | true =>
            rw [hb] at he2
            subst he2
            simp [step, hres, SysInv, Tuzk.isFinished, h1, hb]

theorem sysInv_exec (s : Sys) (acts : List Action) (h : SysInv s) :
    SysInv (exec s acts) := by
  induction acts generalizing s with
  | nil => exact h
  | cons a rest ih => exact ih (step s a) (sysInv_step s a h)

/--
C4 counterexample: the claim asserts the stored continuation is null again
by the time the task reaches any terminal state, including a task cancelled
while parked in Paused.  A task that is run, marked paused, parked at its
next checkpoint and then cancelled ends in the terminal Cancelled state with
the stored continuation still present, so the claimed iff fails there.
-/
theorem C4_counterexample :
    (exec (Tuzk.run initTuzk (.cp none (.ret 0)))
        [.pause, .tau, .cancel]).task.checkpointPromiseControl = true ∧
      (exec (Tuzk.run initTuzk (.cp none (.ret 0)))
        [.pause, .tau, .cancel]).task.state = .cancelled ∧
      (exec (Tuzk.run initTuzk (.cp none (.ret 0)))
        [.pause, .tau, .cancel]).task.state ≠ .paused := by
  refine ⟨rfl, rfl, ?_⟩
  decide

/--
C4 amended: along every execution of a run started from a non-active task,
the stored continuation is present whenever the task is Paused, and when the
continuation is present the task is Paused or Cancelled; the Cancelled case
arises exactly on the path that cancels a task parked in Paused, where the
source never clears the reference.
-/
theorem C4_continuation_invariant (t : Tuzk) (prog : RunnerProg) (acts : List Action)
    (h : t.isActive = false) :
    ((exec (Tuzk.run t prog) acts).task.state = .paused →
      (exec (Tuzk.run t prog) acts).task.checkpointPromiseControl = true) ∧
    ((exec (Tuzk.run t prog) acts).task.checkpointPromiseControl = true →
      (exec (Tuzk.run t prog) acts).task.state = .paused ∨
        (exec (Tuzk.run t prog) acts).task.state = .cancelled) := by
  have hinv := sysInv_exec _ acts (sysInv_run t prog h)
  generalize hs : exec (Tuzk.run t prog) acts = s at hinv ⊢
  obtain ⟨u, ph⟩ := s
  cases ph with
  | runningProg k =>
    obtain ⟨h1, h2⟩ := hinv
    constructor
    · intro hp
      rw [show u.state = TuzkState.running from h1] at hp
      cases hp
    · intro hc
      rw [show u.checkpointPromiseControl = false from h2] at hc
      cases hc
  | parkedAt k =>
    obtain ⟨h1, h2⟩ := hinv
    exact ⟨fun _ => h2, fun _ => Or.inl h1⟩
  | done x =>
    obtain ⟨h1, h2⟩ := hinv
    constructor
    · intro hp
      rw [isFinished_iff] at h1
      rcases h1 with h3 | h3 | h3 <;> rw [hp] at h3 <;> cases h3
    · intro hc
      exact Or.inr (h2 hc)

/-- Witness for C4 at a concrete non-active task and the trace that parks
and cancels it. -/
theorem C4_continuation_invariant_witness :
    ((exec (Tuzk.run initTuzk (.cp none (.ret 0)))
        [.pause, .tau, .cancel]).task.state = .paused →
      (exec (Tuzk.run initTuzk (.cp none (.ret 0)))
        [.pause, .tau, .cancel]).task.checkpointPromiseControl = true) ∧
    ((exec (Tuzk.run initTuzk (.cp none (.ret 0)))
        [.pause, .tau, .cancel]).task.checkpointPromiseControl = true →
      (exec (Tuzk.run initTuzk (.cp none (.ret 0)))
        [.pause, .tau, .cancel]).task.state = .paused ∨
        (exec (Tuzk.run initTuzk (.cp none (.ret 0)))
          [.pause, .tau, .cancel]).task.state = .cancelled) :=
  C4_continuation_invariant initTuzk (.cp none (.ret 0)) [.pause, .tau, .cancel] rfl

/--
C5 counterexample: the claim asserts that run()/start() raises an
invalid-action error after the task has reached any terminal state and that
a second start attempt leaves the state unchanged.  A task that finished in
Success is accepted by a second run call, which moves it back to Running, so
a finished task can be restarted.  The entry check of the source only
rejects active tasks, and its own error message names pending or finished as
the allowed states.
-/
theorem C5_counterexample :
    (step (Tuzk.run initTuzk (.ret 5)) .tau).task.state = .success ∧
      Tuzk.runEnter (step (Tuzk.run initTuzk (.ret 5)) .tau).task (.ret 7) ≠
        .error .invalidState ∧
      (Tuzk.run (step (Tuzk.run initTuzk (.ret 5)) .tau).task (.ret 7)).task.state =
        .running := by
  refine ⟨rfl, ?_, rfl⟩
  decide

/--
C5 amended: run() raises the invalid-action error exactly while the task is
active (Running or Paused), and the dependency-aware start() rejects exactly
while Waiting, Running or Paused; a call from a terminal state is accepted
and restarts the task.
-/
theorem C5_run_rejects_iff_active :
    (∀ (t : Tuzk) (prog : RunnerProg),
      t.runEnter prog = .error .invalidState ↔ t.isActive = true) ∧
    (∀ s : Old.State,
      Old.startRejects s = true ↔ (s = .waiting ∨ s = .running ∨ s = .paused)) := by
  constructor
  · intro t prog
    by_cases h : t.isActive = true <;> simp [Tuzk.runEnter, h]
  · intro s
    cases s <;> simp [Old.startRejects]

/-- Witness for C5 applied at a concrete paused task, which run() rejects. -/
theorem C5_run_rejects_iff_active_witness :
    Tuzk.runEnter ⟨0, true, false, true, none, .paused, none⟩ (.ret 0) =
      .error .invalidState :=
  (C5_run_rejects_iff_active.1 ⟨0, true, false, true, none, .paused, none⟩ (.ret 0)).mpr rfl

theorem cdLoop_some (l : List Old.State) (i : Nat) (e : TuzkErr) (aF : Bool) :
    (Old.cdLoop l i (some e) aF).1 = some e := by
  induction l generalizing i aF with
  | nil => rfl
  | cons st rest ih =>
    cases st <;> simp [Old.cdLoop, Old.State.isFinished, Old.State.isFailed,
      Old.State.isCanceled, Option.getD, ih]

theorem cdLoop_false (l : List Old.State) (i : Nat) (acc : Option TuzkErr) :
    (Old.cdLoop l i acc false).2 = false := by
  induction l generalizing i acc with
  | nil => rfl
  | cons st rest ih =>
    cases st <;> simp [Old.cdLoop, Old.State.isFinished, Old.State.isFailed,
      Old.State.isCanceled, ih]

theorem cdLoop_clean_failed : ∀ (pre post : List Old.State) (i : Nat) (aF : Bool),
    (∀ s ∈ pre, s ≠ Old.State.failed ∧ s ≠ Old.State.canceled) →
    (Old.cdLoop (pre ++ .failed :: post) i none aF).1 =
      some (.depFailed (i + pre.length))
  | [], post, i, aF, _ => by
    simp only [List.nil_append, List.length_nil, Nat.add_zero]
    simp [Old.cdLoop, Old.State.isFinished, Old.State.isFailed, cdLoop_some]
  | s :: pre, post, i, aF, h => by
    obtain ⟨hs1, hs2⟩ := h s (by simp)
    have hrest : ∀ u ∈ pre, u ≠ Old.State.failed ∧ u ≠ Old.State.canceled :=
      fun u hu => h u (by simp [hu])
    have hlen : i + (s :: pre).length = i + 1 + pre.length := by
      simp only [List.length_cons]
      omega
    rw [hlen]
    cases s with
    | failed => exact absurd rfl hs1
    | canceled => exact absurd rfl hs2
    | success =>
      rw [show Old.cdLoop ((Old.State.success :: pre) ++ .failed :: post) i none aF =
          Old.cdLoop (pre ++ .failed :: post) (i + 1) none aF from rfl]
      exact cdLoop_clean_failed pre post (i + 1) aF hrest
    | pending =>
      rw [show Old.cdLoop ((Old.State.pending :: pre) ++ .failed :: post) i none aF =
          Old.cdLoop (pre ++ .failed :: post) (i + 1) none false from rfl]
      exact cdLoop_clean_failed pre post (i + 1) false hrest
    | waiting =>
      rw [show Old.cdLoop ((Old.State.waiting :: pre) ++ .failed :: post) i none aF =
          Old.cdLoop (pre ++ .failed :: post) (i + 1) none false from rfl]
      exact cdLoop_clean_failed pre post (i + 1) false hrest
    | running =>
      rw [show Old.cdLoop ((Old.State.running :: pre) ++ .failed :: post) i none aF =
          Old.cdLoop (pre ++ .failed :: post) (i + 1) none false from rfl]
      exact cdLoop_clean_failed pre post (i + 1) false hrest
    | paused =>
      rw [show Old.cdLoop ((Old.State.paused :: pre) ++ .failed :: post) i none aF =
          Old.cdLoop (pre ++ .failed :: post) (i + 1) none false from rfl]
      exact cdLoop_clean_failed pre post (i + 1) false hrest

theorem cdLoop_clean_canceled : ∀ (pre post : List Old.State) (i : Nat) (aF : Bool),
    (∀ s ∈ pre, s ≠ Old.State.failed ∧ s ≠ Old.State.canceled) →
    (Old.cdLoop (pre ++ .canceled :: post) i none aF).1 = some .cancelledE
  | [], post, i, aF, _ => by
    simp [Old.cdLoop, Old.State.isFinished, Old.State.isFailed,
      Old.State.isCanceled, cdLoop_some]
  | s :: pre, post, i, aF, h => by
    obtain ⟨hs1, hs2⟩ := h s (by simp)
    have hrest : ∀ u ∈ pre, u ≠ Old.State.failed ∧ u ≠ Old.State.canceled :=
      fun u hu => h u (by simp [hu])
    cases s with
    | failed => exact absurd rfl hs1
    | canceled => exact absurd rfl hs2
    | success =>
      rw [show Old.cdLoop ((Old.State.success :: pre) ++ .canceled :: post) i none aF =
          Old.cdLoop (pre ++ .canceled :: post) (i + 1) none aF from rfl]
      exact cdLoop_clean_canceled pre post (i + 1) aF hrest
    | pending =>
      rw [show Old.cdLoop ((Old.State.pending :: pre) ++ .canceled :: post) i none aF =
          Old.cdLoop (pre ++ .canceled :: post) (i + 1) none false from rfl]
      exact cdLoop_clean_canceled pre post (i + 1) false hrest
    | waiting =>
      rw [show Old.cdLoop ((Old.State.waiting :: pre) ++ .canceled :: post) i none aF =
          Old.cdLoop (pre ++ .canceled :: post) (i + 1) none false from rfl]
      exact cdLoop_clean_canceled pre post (i + 1) false hrest
    | running =>
      rw [show Old.cdLoop ((Old.State.running :: pre) ++ .canceled :: post) i none aF =
          Old.cdLoop (pre ++ .canceled :: post) (i + 1) none false from rfl]
      exact cdLoop_clean_canceled pre post (i + 1) false hrest
    | paused =>
      rw [show Old.cdLoop ((Old.State.paused :: pre) ++ .canceled :: post) i none aF =
          Old.cdLoop (pre ++ .canceled :: post) (i + 1) none false from rfl]
      exact cdLoop_clean_canceled pre post (i + 1) false hrest

theorem cdLoop_resolve (l : List Old.State) (i : Nat) :
    Old.cdLoop l i none true = (none, true) ↔ ∀ s ∈ l, s = Old.State.success := by
  induction l generalizing i with
  | nil => simp [Old.cdLoop]
  | cons s rest ih =>
    cases s with
    | success =>
      simp only [Old.cdLoop, Old.State.isFinished, Old.State.isFailed,
        Old.State.isCanceled]
      simp [ih]
    | failed =>
      have h1 := cdLoop_some rest (i + 1) (.depFailed i) true
      constructor
      · intro h2
        rw [show Old.cdLoop (Old.State.failed :: rest) i none true =
            Old.cdLoop rest (i + 1) (some (.depFailed i)) true from rfl] at h2
        rw [h2] at h1
        cases h1
      · intro h2
        have := h2 Old.State.failed (by simp)
        cases this
    | canceled =>
      have h1 := cdLoop_some rest (i + 1) .cancelledE true
      constructor
      · intro h2
        rw [show Old.cdLoop (Old.State.canceled :: rest) i none true =
            Old.cdLoop rest (i + 1) (some .cancelledE) true from rfl] at h2
        rw [h2] at h1
        cases h1
      · intro h2
        have := h2 Old.State.canceled (by simp)
        cases this
    | pending =>
      have h1 := cdLoop_false rest (i + 1) none
      constructor
      · intro h2
        rw [show Old.cdLoop (Old.State.pending :: rest) i none true =
            Old.cdLoop rest (i + 1) none false from rfl] at h2
        rw [h2] at h1
        cases h1
      · intro h2
        have := h2 Old.State.pending (by simp)
        cases this
    | waiting =>
      have h1 := cdLoop_false rest (i + 1) none
      constructor
      · intro h2
        rw [show Old.cdLoop (Old.State.waiting :: rest) i none true =
            Old.cdLoop rest (i + 1) none false from rfl] at h2
        rw [h2] at h1
        cases h1
      · intro h2
        have := h2 Old.State.waiting (by simp)
        cases this
    | running =>
      have h1 := cdLoop_false rest (i + 1) none
      constructor
      · intro h2
        rw [show Old.cdLoop (Old.State.running :: rest) i none true =
            Old.cdLoop rest (i + 1) none false from rfl] at h2
        rw [h2] at h1
        cases h1
      · intro h2
        have := h2 Old.State.running (by simp)
        cases this
    | paused =>
      have h1 := cdLoop_false rest (i + 1) none
      constructor
      · intro h2
        rw [show Old.cdLoop (Old.State.paused :: rest) i none true =
            Old.cdLoop rest (i + 1) none false from rfl] at h2
        rw [h2] at h1
        cases h1
      · intro h2
        have := h2 Old.State.paused (by simp)
        cases this

/--
C7: for a waiting dependent task, the first dependency in scan order that is
Failed rejects readiness with a DependencyFailedError referencing that
dependency (and the dependent then ends Failed), the first that is Canceled
rejects with the cancellation error (the dependent ends Canceled), in both
cases without waiting for the remaining dependencies; and readiness resolves
exactly when every dependency is in the Success state.
-/
theorem C7_dependency_readiness :
    (∀ (pre post : List Old.State),
      (∀ s ∈ pre, s ≠ Old.State.failed ∧ s ≠ Old.State.canceled) →
      (Old.checkDependencies (pre ++ .failed :: post) =
          .rejected (.depFailed pre.length) ∧
        Old.startDepFailure (.depFailed pre.length) = .failed) ∧
      (Old.checkDependencies (pre ++ .canceled :: post) = .rejected .cancelledE ∧
        Old.startDepFailure .cancelledE = .canceled)) ∧
    (∀ deps : List Old.State,
      Old.checkDependencies deps = .resolved ↔ ∀ s ∈ deps, s = Old.State.success) := by
  constructor
  · intro pre post h
    refine ⟨⟨?_, rfl⟩, ⟨?_, rfl⟩⟩
    · have h1 := cdLoop_clean_failed pre post 0 true h
      rw [Old.checkDependencies]
      rcases hcd : Old.cdLoop (pre ++ .failed :: post) 0 none true with ⟨o, b⟩
      rw [hcd] at h1
      simp only at h1
      subst h1
      simp
    · have h1 := cdLoop_clean_canceled pre post 0 true h
      rw [Old.checkDependencies]
      rcases hcd : Old.cdLoop (pre ++ .canceled :: post) 0 none true with ⟨o, b⟩
      rw [hcd] at h1
      simp only at h1
      subst h1
      simp
  · intro deps
    rw [← cdLoop_resolve deps 0]
    rw [Old.checkDependencies]
    rcases hcd : Old.cdLoop deps 0 none true with ⟨o, b⟩
    cases o with
    | none =>
      cases b with
      | true => simp
      | false => simp
    | some e =>
      simp

/-- Witness for C7 at concrete dependency lists: one clean Success
dependency before the deciding Failed or Canceled one, with an unfinished
dependency after it. -/
theorem C7_dependency_readiness_witness :
    (Old.checkDependencies [.success, .failed, .pending] =
        .rejected (.depFailed 1) ∧
      Old.startDepFailure (.depFailed 1) = .failed) ∧
    (Old.checkDependencies [.success, .canceled, .pending] = .rejected .cancelledE ∧
      Old.startDepFailure .cancelledE = .canceled) :=
  C7_dependency_readiness.1 [.success] [.pending]
    (by intro s hs; cases hs with
        | head => exact ⟨by decide, by decide⟩
        | tail _ h2 => cases h2)

theorem setTask_tasks_same (m : TuzkManager) (id : Nat) (f : MTask → MTask) :
    (m.setTask id f).tasks id = f (m.tasks id) := by
  simp [TuzkManager.setTask]

theorem setTask_tasks_other (m : TuzkManager) (id j : Nat) (f : MTask → MTask)
    (h : j ≠ id) : (m.setTask id f).tasks j = m.tasks j := by
  simp [TuzkManager.setTask, h]

theorem canDependOn_self (m : TuzkManager) (fuel t : Nat) :
    m.canDependOn fuel t t = false := by
  cases fuel <;> simp [TuzkManager.canDependOn]

theorem canDependOn_false_of_reaches (m : TuzkManager) (n fuel t d : Nat)
    (h : ReachesIn m n d t) (hfuel : n < fuel) :
    m.canDependOn fuel t d = false := by
  induction h generalizing fuel with
  | @direct a b hmem =>
    obtain ⟨f, rfl⟩ : ∃ f, fuel = f + 1 := ⟨fuel - 1, by omega⟩
    rw [TuzkManager.canDependOn]
    by_cases h1 : a = b
    · simp [h1]
    · rw [if_neg h1]
      by_cases h2 : (m.tasks a).wrapped = false
      · simp [h2]
      · rw [if_neg h2]
        by_cases h3 : a ∈ (m.tasks a).deps
        · simp [h3]
        · rw [if_neg h3]
          cases hall : ((m.tasks a).deps).all (fun x => m.canDependOn f b x) with
          | false => rfl
          | true =>
            have := List.all_eq_true.mp hall b hmem
            rw [canDependOn_self] at this
            cases this
  | @trans a b c nn hmem hreach ih =>
    obtain ⟨f, rfl⟩ : ∃ f, fuel = f + 1 := ⟨fuel - 1, by omega⟩
    rw [TuzkManager.canDependOn]
    by_cases h1 : a = b
    · simp [h1]
    · rw [if_neg h1]
      by_cases h2 : (m.tasks a).wrapped = false
      · simp [h2]
      · rw [if_neg h2]
        by_cases h3 : a ∈ (m.tasks a).deps
        · simp [h3]
        · rw [if_neg h3]
          cases hall : ((m.tasks a).deps).all (fun x => m.canDependOn f b x) with
          | false => rfl
          | true =>
            have := List.all_eq_true.mp hall c hmem
            rw [ih f (by omega)] at this
            cases this

/-- First two submissions and the two addDependency calls of the C6
counterexample scenario: tasks 0 and 1 are submitted, the edge from 0 to 1
is recorded, then a self edge on 0 is refused. -/
def c6m1 : TuzkManager := ((initManager 8).submit 5 0 []).1

def c6m2 : TuzkManager := (c6m1.submit 5 1 []).1

def c6m3 : TuzkManager × Option TuzkErr := c6m2.addDependency 5 0 1

def c6m4 : TuzkManager × Option TuzkErr := (c6m3.1).addDependency 5 0 0

/--
C6 counterexample: the claim asserts that in every rejecting case the cycle
check runs before any mutation.  After recording the edge from task 0 to
task 1, the rejected self edge addDependency(0, 0) still resets the
recorded dependency set of task 0 to empty, because addDependency re-wraps
the task (installing a fresh empty dependency set) before running the check.
-/
theorem C6_counterexample :
    c6m3.2 = none ∧ ((c6m3.1).tasks 0).deps = [1] ∧
      c6m4.2 = some .cycle ∧ ((c6m4.1).tasks 0).deps = [] ∧
      ((c6m4.1).tasks 0).deps ≠ [1] := by
  refine ⟨rfl, rfl, rfl, rfl, ?_⟩
  decide

/--
C6 amended: a self dependency is always refused with the cycle error, and
whenever the dependent task is reachable from the dependency through the
recorded dependency sets the edge is refused as well; in a rejecting case
the new edge is never recorded and no task other than the dependent one is
touched, but the dependent task itself has already been re-wrapped, so its
previously recorded dependency set has been reset to empty rather than left
unchanged.
-/
theorem C6_cycle_rejection (m : TuzkManager) (fuel t d n : Nat) :
    ((m.addDependency fuel t t).2 = some .cycle) ∧
    (ReachesIn (m.wrapTuzk t) n d t → n < fuel →
      (m.addDependency fuel t d).2 = some .cycle) ∧
    ((m.addDependency fuel t d).2 = some .cycle →
      ((m.addDependency fuel t d).1.tasks t).deps = [] ∧
      ∀ j, j ≠ t → (m.addDependency fuel t d).1.tasks j = m.tasks j) := by
  refine ⟨?_, ?_, ?_⟩
  · simp [TuzkManager.addDependency, canDependOn_self]
  · intro hreach hfuel
    simp [TuzkManager.addDependency,
      canDependOn_false_of_reaches (m.wrapTuzk t) n fuel t d hreach hfuel]
  · intro herr
    rw [TuzkManager.addDependency] at herr ⊢
    cases hcd : (m.wrapTuzk t).canDependOn fuel t d with
    | true =>
      rw [hcd] at herr
      simp at herr
    | false =>
      simp only [Bool.false_eq_true, if_false]
      constructor
      · rw [TuzkManager.wrapTuzk, setTask_tasks_same]
      · intro j hj
        rw [TuzkManager.wrapTuzk, setTask_tasks_other _ _ _ _ hj]

/-- Witness for C6 at the concrete two-task chain: adding the back edge that
closes the recorded edge from 0 to 1 into a loop is refused. -/
theorem C6_cycle_rejection_witness :
    ((c6m3.1).addDependency 5 1 0).2 = some .cycle :=
  (C6_cycle_rejection (c6m3.1) 5 1 0 1).2.1 (ReachesIn.direct (by decide)) (by omega)

/--
C10: after addDependency(t, d1) followed by addDependency(t, d2) on
manager-wrapped dependency tasks, the recorded dependency set of t is
exactly the singleton holding d2: each addDependency call re-wraps t, which
resets its recorded dependency set, discarding the earlier edge to d1.
-/
theorem C10_dependency_reset (m : TuzkManager) (fuel t d1 d2 : Nat)
    (h1 : d1 ≠ t) (h2 : d2 ≠ t)
    (hw1 : (m.tasks d1).wrapped = true) (hw2 : (m.tasks d2).wrapped = true)
    (hd1 : (m.tasks d1).deps = []) (hd2 : (m.tasks d2).deps = []) :
    (m.addDependency (fuel + 1) t d1).2 = none ∧
    (((m.addDependency (fuel + 1) t d1).1).tasks t).deps = [d1] ∧
    ((((m.addDependency (fuel + 1) t d1).1).addDependency (fuel + 1) t d2).2 = none ∧
     ((((m.addDependency (fuel + 1) t d1).1).addDependency
        (fuel + 1) t d2).1.tasks t).deps = [d2]) := by
  have hwrap1 : ∀ j, j ≠ t → (m.wrapTuzk t).tasks j = m.tasks j :=
    fun j hj => setTask_tasks_other _ _ _ _ hj
  have hcd1 : (m.wrapTuzk t).canDependOn (fuel + 1) t d1 = true := by
    rw [TuzkManager.canDependOn, if_neg h1, hwrap1 d1 h1]
    simp [hw1, hd1]
  have hstep1 : m.addDependency (fuel + 1) t d1 =
      ((m.wrapTuzk t).setTask t
        (fun tk => { tk with deps := insertIfAbsent d1 tk.deps }), none) := by
    rw [TuzkManager.addDependency, if_pos hcd1]
  set m1 := (m.wrapTuzk t).setTask t
    (fun tk => { tk with deps := insertIfAbsent d1 tk.deps }) with hm1
  have hm1t : (m1.tasks t).deps = [d1] := by
    rw [hm1, setTask_tasks_same, TuzkManager.wrapTuzk, setTask_tasks_same]
    simp [insertIfAbsent]
  have hm1o : ∀ j, j ≠ t → m1.tasks j = m.tasks j := by
    intro j hj
    rw [hm1, setTask_tasks_other _ _ _ _ hj, hwrap1 j hj]
  have hcd2 : (m1.wrapTuzk t).canDependOn (fuel + 1) t d2 = true := by
    rw [TuzkManager.canDependOn, if_neg h2, TuzkManager.wrapTuzk,
      setTask_tasks_other _ _ _ _ h2, hm1o d2 h2]
    simp [hw2, hd2]
  have hstep2 : m1.addDependency (fuel + 1) t d2 =
      ((m1.wrapTuzk t).setTask t
        (fun tk => { tk with deps := insertIfAbsent d2 tk.deps }), none) := by
    rw [TuzkManager.addDependency, if_pos hcd2]
  refine ⟨by rw [hstep1], by rw [hstep1]; exact hm1t, by rw [hstep1, hstep2], ?_⟩
  rw [hstep1]
  simp only
  rw [hstep2]
  simp only
  rw [setTask_tasks_same, TuzkManager.wrapTuzk, setTask_tasks_same]
  simp [insertIfAbsent]

/-- Witness for C10 on a manager whose environment wraps every task. -/
theorem C10_dependency_reset_witness :
    ((⟨8, [], [], [], fun _ => ⟨true, [], .pending⟩⟩ :
        TuzkManager).addDependency 3 0 1).2 = none ∧
    (((⟨8, [], [], [], fun _ => ⟨true, [], .pending⟩⟩ :
        TuzkManager).addDependency 3 0 1).1.tasks 0).deps = [1] ∧
    (((((⟨8, [], [], [], fun _ => ⟨true, [], .pending⟩⟩ :
        TuzkManager).addDependency 3 0 1).1).addDependency 3 0 2).2 = none ∧
     (((((⟨8, [], [], [], fun _ => ⟨true, [], .pending⟩⟩ :
        TuzkManager).addDependency 3 0 1).1).addDependency 3 0 2).1.tasks 0).deps = [2]) :=
  C10_dependency_reset ⟨8, [], [], [], fun _ => ⟨true, [], .pending⟩⟩ 2 0 1 2
    (by decide) (by decide) rfl rfl rfl rfl

theorem insertIfAbsent_length (id : Nat) (l : List Nat) :
    (insertIfAbsent id l).length ≤ l.length + 1 := by
  rw [insertIfAbsent]
  split
  · omega
  · simp

theorem insertIfAbsent_of_not_mem (id : Nat) (l : List Nat) (h : id ∉ l) :
    insertIfAbsent id l = l ++ [id] := by
  rw [insertIfAbsent, if_neg h]

theorem addDependency_frame (m : TuzkManager) (fuel t d : Nat) :
    (m.addDependency fuel t d).1.concurrency = m.concurrency ∧
    (m.addDependency fuel t d).1.activated = m.activated ∧
    (m.addDependency fuel t d).1.pendingQueue = m.pendingQueue ∧
    (m.addDependency fuel t d).1.finished = m.finished ∧
    ∀ j, ((m.addDependency fuel t d).1.tasks j).state = (m.tasks j).state := by
  rw [TuzkManager.addDependency]
  split
  · refine ⟨rfl, rfl, rfl, rfl, ?_⟩
    intro j
    by_cases hj : j = t <;>
      simp [TuzkManager.setTask, TuzkManager.wrapTuzk, hj]
  · refine ⟨rfl, rfl, rfl, rfl, ?_⟩
    intro j
    by_cases hj : j = t <;>
      simp [TuzkManager.setTask, TuzkManager.wrapTuzk, hj]

theorem addDepsLoop_frame (fuel id : Nat) : ∀ (deps : List Nat) (m : TuzkManager),
    (TuzkManager.addDepsLoop fuel id m deps).1.concurrency = m.concurrency ∧
    (TuzkManager.addDepsLoop fuel id m deps).1.activated = m.activated ∧
    (TuzkManager.addDepsLoop fuel id m deps).1.pendingQueue = m.pendingQueue ∧
    (TuzkManager.addDepsLoop fuel id m deps).1.finished = m.finished ∧
    ∀ j, ((TuzkManager.addDepsLoop fuel id m deps).1.tasks j).state = (m.tasks j).state
  | [], m => ⟨rfl, rfl, rfl, rfl, fun _ => rfl⟩
  | d :: rest, m => by
    have hf := addDependency_frame m fuel id d
    rw [TuzkManager.addDepsLoop]
    rcases had : m.addDependency fuel id d with ⟨m1, e⟩
    rw [had] at hf
    cases e with
    | some e2 => exact hf
    | none =>
      have hrec := addDepsLoop_frame fuel id rest m1
      exact ⟨hrec.1.trans hf.1, hrec.2.1.trans hf.2.1, hrec.2.2.1.trans hf.2.2.1,
        hrec.2.2.2.1.trans hf.2.2.2.1,
        fun j => (hrec.2.2.2.2 j).trans (hf.2.2.2.2 j)⟩

theorem sweepGo_frame : ∀ (queue kept : List Nat) (m : TuzkManager),
    (TuzkManager.sweepGo m queue kept).concurrency = m.concurrency ∧
    ((TuzkManager.sweepGo m queue kept).activated.length ≤
        m.concurrency ∨
      (TuzkManager.sweepGo m queue kept).activated = m.activated)
  | [], kept, m => ⟨rfl, Or.inr rfl⟩
  | id :: rest, kept, m => by
    rw [TuzkManager.sweepGo]
    by_cases hcap : m.activated.length < m.concurrency
    · rw [if_pos hcap]
      by_cases hdeps : m.areDependenciesMet id = true
      · rw [if_pos hdeps]
        have hrec := sweepGo_frame rest kept
          (({ m with activated := insertIfAbsent id m.activated }).runTask id)
        refine ⟨hrec.1, ?_⟩
        rcases hrec.2 with h1 | h1
        · exact Or.inl h1
        · left
          rw [h1]
          have := insertIfAbsent_length id m.activated
          show (insertIfAbsent id m.activated).length ≤ m.concurrency
          omega
      · rw [if_neg hdeps]
        exact sweepGo_frame rest (id :: kept) m
    · rw [if_neg hcap]
      exact ⟨rfl, Or.inr rfl⟩

theorem sweepGo_bound (queue kept : List Nat) (m : TuzkManager)
    (h : m.activated.length ≤ m.concurrency) :
    (TuzkManager.sweepGo m queue kept).activated.length ≤
      (TuzkManager.sweepGo m queue kept).concurrency := by
  have hf := sweepGo_frame queue kept m
  rw [hf.1]
  rcases hf.2 with h1 | h1
  · exact h1
  · rw [h1]
    exact h

theorem submit_bound (m : TuzkManager) (fuel id : Nat) (deps : List Nat)
    (hb : m.activated.length ≤ m.concurrency)
    (hinactive : ¬((m.tasks id).state = .running ∨ (m.tasks id).state = .paused)) :
    (m.submit fuel id deps).1.activated.length ≤ (m.submit fuel id deps).1.concurrency ∧
    (m.submit fuel id deps).1.concurrency = m.concurrency := by
  rw [TuzkManager.submit]
  have hwstate : ∀ j,
      (({ m.wrapTuzk id with finished := (m.wrapTuzk id).finished.erase id
        } : TuzkManager).tasks j).state = (m.tasks j).state := by
    intro j
    by_cases hj : j = id <;> simp [TuzkManager.wrapTuzk, TuzkManager.setTask, hj]
  have hfr := addDepsLoop_frame fuel id deps
    { m.wrapTuzk id with finished := (m.wrapTuzk id).finished.erase id }
  rcases hal : TuzkManager.addDepsLoop fuel id
      { m.wrapTuzk id with finished := (m.wrapTuzk id).finished.erase id } deps
    with ⟨m3, e⟩
  rw [hal] at hfr
  have hact3 : m3.activated = m.activated := hfr.2.1
  have hconc3 : m3.concurrency = m.concurrency := hfr.1
  have hstate3 : (m3.tasks id).state = (m.tasks id).state :=
    (hfr.2.2.2.2 id).trans (hwstate id)
  cases e with
  | some e2 =>
    simp only
    rw [hact3, hconc3]
    exact ⟨hb, rfl⟩
  | none =>
    simp only
    rw [if_neg (by rw [hstate3]; exact hinactive)]
    by_cases hcap : m3.activated.length < m3.concurrency
    · rw [if_pos hcap]
      rw [hact3, hconc3] at hcap
      constructor
      · rw [show (({ m3 with activated := insertIfAbsent id m3.activated
            } : TuzkManager).runTask id).activated = insertIfAbsent id m3.activated
            from rfl]
        rw [show (({ m3 with activated := insertIfAbsent id m3.activated
            } : TuzkManager).runTask id).concurrency = m3.concurrency from rfl]
        rw [hact3, hconc3]
        have := insertIfAbsent_length id m.activated
        omega
      · exact hconc3
    · rw [if_neg hcap]
      simp only
      rw [hact3, hconc3]
      exact ⟨hb, rfl⟩

theorem onFinish_bound (m : TuzkManager) (id : Nat) (st : TuzkState)
    (hb : m.activated.length ≤ m.concurrency) :
    (m.onTaskFinished id st).activated.length ≤
      (m.onTaskFinished id st).concurrency := by
  rw [TuzkManager.onTaskFinished, TuzkManager.tryActivatePendingTasks]
  apply sweepGo_bound
  simp only
  calc (m.activated.erase id).length ≤ m.activated.length := List.length_erase_le ..
    _ ≤ m.concurrency := hb

theorem submit_nil_start (m : TuzkManager) (fuel id : Nat)
    (hpend : (m.tasks id).state = .pending) (hnotin : id ∉ m.activated)
    (hcap : m.activated.length < m.concurrency) :
    (m.submit fuel id []).2 = none ∧
    (m.submit fuel id []).1.concurrency = m.concurrency ∧
    (m.submit fuel id []).1.activated = m.activated ++ [id] ∧
    (m.submit fuel id []).1.pendingQueue = m.pendingQueue ∧
    ((m.submit fuel id []).1.tasks id).state = .running ∧
    ∀ j, j ≠ id → (m.submit fuel id []).1.tasks j = m.tasks j := by
  rw [TuzkManager.submit]
  simp only [TuzkManager.addDepsLoop]
  have hstate : (({ m.wrapTuzk id with
      finished := (m.wrapTuzk id).finished.erase id } : TuzkManager).tasks id).state =
      TuzkState.pending := by
    simpa [TuzkManager.wrapTuzk, TuzkManager.setTask] using hpend
  rw [if_neg (by rw [hstate]; simp)]
  rw [if_pos (show (m.wrapTuzk id).activated.length < (m.wrapTuzk id).concurrency from hcap)]
  refine ⟨rfl, rfl, ?_, rfl, ?_, ?_⟩
  · exact insertIfAbsent_of_not_mem id m.activated hnotin
  · simp [TuzkManager.runTask, TuzkManager.setTask]
  · intro j hj
    simp [TuzkManager.runTask, TuzkManager.setTask, TuzkManager.wrapTuzk, hj]

theorem submit_nil_queue (m : TuzkManager) (fuel id : Nat)
    (hpend : (m.tasks id).state = .pending)
    (hcap : ¬ m.activated.length < m.concurrency) :
    (m.submit fuel id []).2 = none ∧
    (m.submit fuel id []).1.concurrency = m.concurrency ∧
    (m.submit fuel id []).1.activated = m.activated ∧
    (m.submit fuel id []).1.pendingQueue = m.pendingQueue ++ [id] ∧
    ((m.submit fuel id []).1.tasks id).state = .pending ∧
    ∀ j, j ≠ id → (m.submit fuel id []).1.tasks j = m.tasks j := by
  rw [TuzkManager.submit]
  simp only [TuzkManager.addDepsLoop]
  have hstate : (({ m.wrapTuzk id with
      finished := (m.wrapTuzk id).finished.erase id } : TuzkManager).tasks id).state =
      TuzkState.pending := by
    simpa [TuzkManager.wrapTuzk, TuzkManager.setTask] using hpend
  rw [if_neg (by rw [hstate]; simp)]
  rw [if_neg (show ¬(m.wrapTuzk id).activated.length < (m.wrapTuzk id).concurrency from hcap)]
  refine ⟨rfl, rfl, rfl, rfl, ?_, ?_⟩
  · exact hstate
  · intro j hj
    simp [TuzkManager.wrapTuzk, TuzkManager.setTask, hj]

/-- Iterated dependency-free submissions in order. -/
def submitAll (fuel : Nat) : TuzkManager → List Nat → TuzkManager
  | m, [] => m
  | m, id :: rest => submitAll fuel (m.submit fuel id []).1 rest

theorem submitAll_spec (fuel : Nat) : ∀ (ids : List Nat) (m : TuzkManager),
    ids.Nodup →
    (∀ id ∈ ids, (m.tasks id).state = .pending ∧ id ∉ m.activated) →
    m.activated.length ≤ m.concurrency →
    (submitAll fuel m ids).concurrency = m.concurrency ∧
    (submitAll fuel m ids).activated =
      m.activated ++ ids.take (m.concurrency - m.activated.length) ∧
    (submitAll fuel m ids).pendingQueue =
      m.pendingQueue ++ ids.drop (m.concurrency - m.activated.length) ∧
    (∀ id ∈ ids.take (m.concurrency - m.activated.length),
      ((submitAll fuel m ids).tasks id).state = .running) ∧
    (∀ id ∈ ids.drop (m.concurrency - m.activated.length),
      ((submitAll fuel m ids).tasks id).state = .pending) ∧
    (∀ j, j ∉ ids → (submitAll fuel m ids).tasks j = m.tasks j)
  | [], m => by
    intro _ _ _
    simp [submitAll]
  | id :: rest, m => by
    intro hnd hids hb
    obtain ⟨hpend, hnotin⟩ := hids id (by simp)
    have hndr : rest.Nodup := (List.nodup_cons.mp hnd).2
    have hidr : id ∉ rest := (List.nodup_cons.mp hnd).1
    by_cases hcap : m.activated.length < m.concurrency
    · have S := submit_nil_start m fuel id hpend hnotin hcap
      have hids2 : ∀ u ∈ rest, ((m.submit fuel id []).1.tasks u).state = .pending ∧
          u ∉ (m.submit fuel id []).1.activated := by
        intro u hu
        have hne : u ≠ id := fun h => hidr (h ▸ hu)
        obtain ⟨hu1, hu2⟩ := hids u (by simp [hu])
        constructor
        · rw [S.2.2.2.2.2 u hne]
          exact hu1
        · rw [S.2.2.1]
          simp [hu2, hne]
      have hb2 : (m.submit fuel id []).1.activated.length ≤
          (m.submit fuel id []).1.concurrency := by
        rw [S.2.1, S.2.2.1]
        simp only [List.length_append, List.length_cons, List.length_nil]
        omega
      have IH := submitAll_spec fuel rest (m.submit fuel id []).1 hndr hids2 hb2
      have hkarith : (m.submit fuel id []).1.concurrency -
          (m.submit fuel id []).1.activated.length =
          m.concurrency - m.activated.length - 1 := by
        rw [S.2.1, S.2.2.1]
        simp only [List.length_append, List.length_cons, List.length_nil]
        omega
      obtain ⟨f, hf⟩ : ∃ f, m.concurrency - m.activated.length = f + 1 :=
        ⟨m.concurrency - m.activated.length - 1, by omega⟩
      rw [hkarith, hf] at IH
      simp only [Nat.add_sub_cancel] at IH
      have hsub : submitAll fuel m (id :: rest) =
          submitAll fuel (m.submit fuel id []).1 rest := rfl
      rw [hsub, hf]
      rw [List.take_succ_cons, List.drop_succ_cons]
      refine ⟨IH.1.trans S.2.1, ?_, ?_, ?_, ?_, ?_⟩
      · rw [IH.2.1, S.2.2.1, List.append_assoc]
        simp
      · rw [IH.2.2.1, S.2.2.2.1]
      · intro u hu
        rcases List.mem_cons.mp hu with h1 | h1
        · subst h1
          rw [IH.2.2.2.2.2 u hidr]
          exact S.2.2.2.2.1
        · exact IH.2.2.2.1 u h1
      · intro u hu
        exact IH.2.2.2.2.1 u hu
      · intro j hj
        have hj1 : j ≠ id := fun h => hj (by simp [h])
        have hj2 : j ∉ rest := fun h => hj (by simp [h])
        rw [IH.2.2.2.2.2 j hj2]
        exact S.2.2.2.2.2 j hj1
    · have S := submit_nil_queue m fuel id hpend hcap
      have hids2 : ∀ u ∈ rest, ((m.submit fuel id []).1.tasks u).state = .pending ∧
          u ∉ (m.submit fuel id []).1.activated := by
        intro u hu
        have hne : u ≠ id := fun h => hidr (h ▸ hu)
        obtain ⟨hu1, hu2⟩ := hids u (by simp [hu])
        constructor
        · rw [S.2.2.2.2.2 u hne]
          exact hu1
        · rw [S.2.2.1]
          exact hu2
      have hb2 : (m.submit fuel id []).1.activated.length ≤
          (m.submit fuel id []).1.concurrency := by
        rw [S.2.1, S.2.2.1]
        exact hb
      have IH := submitAll_spec fuel rest (m.submit fuel id []).1 hndr hids2 hb2
      have hk0 : m.concurrency - m.activated.length = 0 := by omega
      have hkarith : (m.submit fuel id []).1.concurrency -
          (m.submit fuel id []).1.activated.length = 0 := by
        rw [S.2.1, S.2.2.1]
        omega
      rw [hkarith] at IH
      have hsub : submitAll fuel m (id :: rest) =
          submitAll fuel (m.submit fuel id []).1 rest := rfl
      rw [hsub, hk0]
      simp only [List.take_zero, List.drop_zero] at IH ⊢
      refine ⟨IH.1.trans S.2.1, ?_, ?_, ?_, ?_, ?_⟩
      · rw [IH.2.1, S.2.2.1]
      · rw [IH.2.2.1, S.2.2.2.1, List.append_assoc]
        rfl
      · intro u hu
        cases hu
      · intro u hu
        rcases List.mem_cons.mp hu with h1 | h1
        · subst h1
          rw [IH.2.2.2.2.2 u hidr]
          exact S.2.2.2.2.1
        · exact IH.2.2.2.2.1 u h1
      · intro j hj
        have hj1 : j ≠ id := fun h => hj (by simp [h])
        have hj2 : j ∉ rest := fun h => hj (by simp [h])
        rw [IH.2.2.2.2.2 j hj2]
        exact S.2.2.2.2.2 j hj1

theorem sweepGo_noCap : ∀ (queue kept : List Nat) (m : TuzkManager),
    ¬ m.activated.length < m.concurrency →
    (TuzkManager.sweepGo m queue kept).activated = m.activated ∧
    (TuzkManager.sweepGo m queue kept).pendingQueue = kept.reverse ++ queue ∧
    (TuzkManager.sweepGo m queue kept).tasks = m.tasks
  | [], kept, m, _ => ⟨rfl, by simp [TuzkManager.sweepGo], rfl⟩
  | a :: l, kept, m, h => by
    rw [TuzkManager.sweepGo, if_neg h]
    exact ⟨rfl, rfl, rfl⟩

theorem sweepGo_activate_head (m : TuzkManager) (q : Nat) (qrest : List Nat)
    (hcap : m.activated.length < m.concurrency)
    (hmet : m.areDependenciesMet q = true)
    (hstop : ¬ (insertIfAbsent q m.activated).length < m.concurrency) :
    (TuzkManager.sweepGo m (q :: qrest) []).activated = insertIfAbsent q m.activated ∧
    (TuzkManager.sweepGo m (q :: qrest) []).pendingQueue = qrest ∧
    ((TuzkManager.sweepGo m (q :: qrest) []).tasks q).state = .running := by
  rw [TuzkManager.sweepGo, if_pos hcap, if_pos hmet]
  have hrest := sweepGo_noCap qrest []
    (({ m with activated := insertIfAbsent q m.activated }).runTask q)
    (show ¬ (insertIfAbsent q m.activated).length < m.concurrency from hstop)
  refine ⟨hrest.1, ?_, ?_⟩
  · rw [hrest.2.1]
    rfl
  · rw [hrest.2.2]
    simp [TuzkManager.runTask, TuzkManager.setTask]

theorem tryActivate_head (m2 : TuzkManager) (q : Nat) (qrest : List Nat)
    (hq : m2.pendingQueue = q :: qrest)
    (hcap : m2.activated.length < m2.concurrency)
    (hmet : m2.areDependenciesMet q = true)
    (hstop : ¬ (insertIfAbsent q m2.activated).length < m2.concurrency) :
    (m2.tryActivatePendingTasks).activated = insertIfAbsent q m2.activated ∧
    (m2.tryActivatePendingTasks).pendingQueue = qrest ∧
    ((m2.tryActivatePendingTasks).tasks q).state = .running := by
  rw [TuzkManager.tryActivatePendingTasks, hq]
  exact sweepGo_activate_head { m2 with pendingQueue := [] } q qrest hcap hmet hstop

theorem onFinish_head (m : TuzkManager) (id q : Nat) (qrest : List Nat) (st : TuzkState)
    (hfull : m.activated.length = m.concurrency)
    (hmem : id ∈ m.activated)
    (hq : m.pendingQueue = q :: qrest)
    (hdeps : (m.tasks q).deps = [])
    (hqne : q ≠ id) (hqact : q ∉ m.activated) :
    (m.onTaskFinished id st).activated = m.activated.erase id ++ [q] ∧
    (m.onTaskFinished id st).pendingQueue = qrest ∧
    ((m.onTaskFinished id st).tasks q).state = .running := by
  have hconc1 : 1 ≤ m.concurrency := by
    have h1 : 0 < m.activated.length := List.length_pos.mpr (List.ne_nil_of_mem hmem)
    omega
  have herase : (m.activated.erase id).length = m.activated.length - 1 :=
    List.length_erase_of_mem hmem
  have hins : insertIfAbsent q (m.activated.erase id) = m.activated.erase id ++ [q] :=
    insertIfAbsent_of_not_mem _ _ (fun hcon => hqact (List.mem_of_mem_erase hcon))
  have hrepr : m.onTaskFinished id st = TuzkManager.tryActivatePendingTasks
      ⟨m.concurrency, m.pendingQueue, m.activated.erase id, insertIfAbsent id m.finished,
        fun j => if j = id then { m.tasks j with state := st } else m.tasks j⟩ := rfl
  rw [hrepr]
  have hsw := tryActivate_head
    ⟨m.concurrency, m.pendingQueue, m.activated.erase id, insertIfAbsent id m.finished,
      fun j => if j = id then { m.tasks j with state := st } else m.tasks j⟩ q qrest
    hq
    (by
      show (m.activated.erase id).length < m.concurrency
      omega)
    (by
      rw [TuzkManager.areDependenciesMet]
      simp [hqne, hdeps])
    (by
      show ¬ (insertIfAbsent q (m.activated.erase id)).length < m.concurrency
      rw [hins]
      simp only [List.length_append, List.length_cons, List.length_nil]
      omega)
  refine ⟨?_, hsw.2.1, hsw.2.2⟩
  rw [hsw.1]
  exact hins

/-- Condition on an event list that every submit happens while the
submitted task is not active, checked against the evolving manager state. -/
def submitsInactive (fuel : Nat) : TuzkManager → List MgrEvent → Bool
  | _, [] => true
  | m, e :: rest =>
    (match e with
     | .submitEv id _ =>
       !((m.tasks id).state == .running || (m.tasks id).state == .paused)
     | .finishEv _ _ => true) && submitsInactive fuel (mgrStep fuel m e) rest

theorem mgrExec_bound (fuel : Nat) : ∀ (events : List MgrEvent) (m : TuzkManager),
    m.activated.length ≤ m.concurrency →
    submitsInactive fuel m events = true →
    (mgrExec fuel m events).activated.length ≤ (mgrExec fuel m events).concurrency
  | [], m => fun hb _ => hb
  | e :: rest, m => by
    intro hb hsi
    rw [show mgrExec fuel m (e :: rest) = mgrExec fuel (mgrStep fuel m e) rest from rfl]
    cases e with
    | submitEv id deps =>
      rw [show submitsInactive fuel m (.submitEv id deps :: rest) =
        ((!((m.tasks id).state == .running || (m.tasks id).state == .paused)) &&
          submitsInactive fuel (mgrStep fuel m (.submitEv id deps)) rest) from rfl,
        Bool.and_eq_true] at hsi
      have hinactive :
          ¬((m.tasks id).state = .running ∨ (m.tasks id).state = .paused) := by
        have h1 := hsi.1
        simp only [Bool.not_eq_true'] at h1
        rcases Bool.or_eq_false_iff.mp h1 with ⟨h2, h3⟩
        simp only [beq_eq_false_iff_ne, ne_eq] at h2 h3
        rintro (h4 | h4)
        · exact h2 h4
        · exact h3 h4
      refine mgrExec_bound fuel rest (mgrStep fuel m (.submitEv id deps)) ?_ hsi.2
      exact (submit_bound m fuel id deps hb hinactive).1
    | finishEv id st =>
      rw [show submitsInactive fuel m (.finishEv id st :: rest) =
        (true && submitsInactive fuel (mgrStep fuel m (.finishEv id st)) rest) from rfl,
        Bool.true_and] at hsi
      refine mgrExec_bound fuel rest (mgrStep fuel m (.finishEv id st)) ?_ hsi
      rw [show mgrStep fuel m (.finishEv id st) =
        (if st = .success ∨ st = .failed ∨ st = .cancelled
          then m.onTaskFinished id st else m) from rfl]
      by_cases hst : st = TuzkState.success ∨ st = TuzkState.failed ∨
          st = TuzkState.cancelled
      · rw [if_pos hst]
        have := onFinish_bound m id st hb
        rw [TuzkManager.onTaskFinished, TuzkManager.tryActivatePendingTasks] at this
        rw [TuzkManager.onTaskFinished, TuzkManager.tryActivatePendingTasks]
        have hfr := sweepGo_frame
          ((({ m.setTask id fun t => { t with state := st } with
            activated := (m.setTask id fun t => { t with state := st }).activated.erase id,
            finished := insertIfAbsent id
              (m.setTask id fun t => { t with state := st }).finished }) :
            TuzkManager).pendingQueue) []
        exact this.trans (le_of_eq rfl)
      · rw [if_neg hst]
        exact hb

/-- A manager with concurrency limit 1 whose environment already has task 1
running for an external reason. -/
def c8m0 : TuzkManager :=
  ⟨1, [], [], [], fun j => if j = 1 then ⟨false, [], .running⟩ else initMTask⟩

def c8m1 : TuzkManager := (c8m0.submit 3 2 []).1

def c8m2 : TuzkManager := (c8m1.submit 3 1 []).1

/--
C8 counterexample: the claim asserts that at no instant do more than N
tracked tasks occupy the active set.  With concurrency 1, after submitting a
pending task (which starts) and then submitting a task that is already
Running for an external reason, the source adds the active task to the
active set without a capacity check, so the active set holds 2 tasks under a
limit of 1.
-/
theorem C8_counterexample :
    c8m2.concurrency = 1 ∧ c8m2.activated = [2, 1] ∧
      ¬ c8m2.activated.length ≤ c8m2.concurrency := by
  refine ⟨rfl, rfl, ?_⟩
  decide

/--
C8 amended: the concurrency bound holds for every event sequence in which
each submitted task is not active at its submission (a task submitted while
already Running or Paused is tracked in the active set regardless of the
limit); when M dependency-free pending tasks are submitted to a fresh
manager with limit N, exactly the first N of them start immediately and the
rest are appended to the pending queue in submission order; and when an
active task of a full manager finishes, the head of the dependency-free
pending queue is started in its place, preserving FIFO order.
-/
theorem C8_concurrency_bound :
    (∀ (fuel : Nat) (events : List MgrEvent) (m : TuzkManager),
      m.activated.length ≤ m.concurrency →
      submitsInactive fuel m events = true →
      (mgrExec fuel m events).activated.length ≤
        (mgrExec fuel m events).concurrency) ∧
    (∀ (fuel N M : Nat),
      (submitAll fuel (initManager N) (List.range M)).activated =
          (List.range M).take N ∧
        (submitAll fuel (initManager N) (List.range M)).pendingQueue =
          (List.range M).drop N ∧
        (∀ id ∈ (List.range M).take N,
          ((submitAll fuel (initManager N) (List.range M)).tasks id).state = .running) ∧
        (∀ id ∈ (List.range M).drop N,
          ((submitAll fuel (initManager N) (List.range M)).tasks id).state =
            .pending)) ∧
    (∀ (m : TuzkManager) (id q : Nat) (qrest : List Nat) (st : TuzkState),
      m.activated.length = m.concurrency → id ∈ m.activated →
      m.pendingQueue = q :: qrest → (m.tasks q).deps = [] → q ≠ id →
      q ∉ m.activated →
      (m.onTaskFinished id st).activated = m.activated.erase id ++ [q] ∧
      (m.onTaskFinished id st).pendingQueue = qrest ∧
      ((m.onTaskFinished id st).tasks q).state = .running) := by
  refine ⟨mgrExec_bound, ?_, onFinish_head⟩
  intro fuel N M
  have S := submitAll_spec fuel (List.range M) (initManager N) (List.nodup_range M)
    (by intro id _; exact ⟨rfl, by simp [initManager]⟩)
    (by simp [initManager])
  have hconc : (initManager N).concurrency = N := rfl
  have hact : (initManager N).activated = [] := rfl
  rw [hconc, hact] at S
  simp only [List.length_nil, Nat.sub_zero, List.nil_append] at S
  exact ⟨S.2.1, S.2.2.1, S.2.2.2.1, S.2.2.2.2.1⟩

/-- Witness for C8: the bound over a concrete event trace, the take and drop
split for two submissions under limit 1, and the FIFO activation on a
concrete full manager. -/
theorem C8_concurrency_bound_witness :
    ((mgrExec 1 (initManager 1)
        [.submitEv 10 [], .submitEv 11 [], .finishEv 10 .success]).activated.length ≤
      (mgrExec 1 (initManager 1)
        [.submitEv 10 [], .submitEv 11 [], .finishEv 10 .success]).concurrency) ∧
    (submitAll 1 (initManager 1) (List.range 2)).activated = (List.range 2).take 1 ∧
    ((⟨1, [2], [1], [],
        fun j => if j = 1 then ⟨true, [], .running⟩ else ⟨true, [], .pending⟩⟩ :
      TuzkManager).onTaskFinished 1 .success).activated = [1].erase 1 ++ [2] :=
  ⟨C8_concurrency_bound.1 1 [.submitEv 10 [], .submitEv 11 [], .finishEv 10 .success]
      (initManager 1) (by decide) (by decide),
    (C8_concurrency_bound.2.1 1 1 2).1,
    (C8_concurrency_bound.2.2
      ⟨1, [2], [1], [],
        fun j => if j = 1 then ⟨true, [], .running⟩ else ⟨true, [], .pending⟩⟩
      1 2 [] .success rfl (by decide) rfl rfl (by decide) (by decide)).1⟩

theorem cancelChildren_none : ∀ cs : List Tuzk,
    (∀ c ∈ cs, c.state = .running ∨ c.state = .paused ∨ c.state = .cancelled) →
    (cancelChildren cs).2 = none
  | [], _ => rfl
  | c :: rest, h => by
    have hcc : c.cancel = .ok ({ c with shouldCancel := true },
        c.checkpointPromiseControl) := by
      rcases h c (by simp) with h1 | h1 | h1 <;> rw [Tuzk.cancel, h1]
    rw [show cancelChildren (c :: rest) =
      (match c.cancel with
        | .ok (c1, _) =>
          (match cancelChildren rest with
            | (rest1, e) => (c1 :: rest1, e))
        | .error e => (c :: rest, some e)) from rfl, hcc]
    have hrec := cancelChildren_none rest (fun u hu => h u (by simp [hu]))
    rcases hcr : cancelChildren rest with ⟨rest1, e⟩
    rw [hcr] at hrec
    simpa using hrec

/-- A composite task observed while Running, built by running a fresh task
up to its first checkpoint. -/
def c9comp : Tuzk := (Tuzk.run initTuzk (.cp none (.ret 0))).task

/-- A child task that has already finished in Success. -/
def c9child : Tuzk := (step (Tuzk.run initTuzk (.ret 1)) .tau).task

/--
C9 counterexample: the claim asserts that a child already in a terminal
state simply ignores the redundant call and the composite operation
completes without raising.  With a Running composite and a child that has
finished in Success, both CompositeTuzk.cancel and CompositeTuzk.pause
raise an InvalidStateError from the fan-out over that terminal child.
-/
theorem C9_counterexample :
    c9comp.state = .running ∧ c9child.state = .success ∧
      (CompositeTuzk.cancel c9comp [c9child]).2 = some .invalidState ∧
      (CompositeTuzk.pause c9comp [c9child]).2 = some .invalidState := by
  refine ⟨rfl, rfl, ?_, ?_⟩ <;> decide

/--
C9 amended: pause, resume and cancel on a composite apply to the composite
itself first (an error there leaves every child untouched) and then fan out
to the children in order.  A child already in the Cancelled state accepts
the redundant cancel (idempotent), but a child in Success or Failed raises
an InvalidStateError from cancel, and any non-active child raises from
pause and resume; the first such child aborts the fan-out and its error
propagates out of the composite operation.  When every child is Running,
Paused or Cancelled, the composite cancel completes without an error.
-/
theorem C9_composite_fanout :
    (∀ (t : Tuzk) (cs : List Tuzk) (e : TuzkErr),
      t.pause = .error e → CompositeTuzk.pause t cs = ((t, cs), some e)) ∧
    (∀ (t : Tuzk) (cs : List Tuzk) (e : TuzkErr),
      t.cancel = .error e → CompositeTuzk.cancel t cs = ((t, cs), some e)) ∧
    (∀ c : Tuzk, c.state = .cancelled →
      c.cancel = .ok ({ c with shouldCancel := true }, c.checkpointPromiseControl)) ∧
    (∀ c : Tuzk, c.state = .success ∨ c.state = .failed →
      c.cancel = .error .invalidState) ∧
    (∀ c : Tuzk, c.isActive = false →
      c.pause = .error .invalidState ∧ c.resume = .error .invalidState) ∧
    (∀ (t u : Tuzk) (b : Bool) (c : Tuzk) (cs : List Tuzk),
      t.cancel = .ok (u, b) → c.cancel = .error .invalidState →
      CompositeTuzk.cancel t (c :: cs) = ((u, c :: cs), some .invalidState)) ∧
    (∀ (t u : Tuzk) (b : Bool) (cs : List Tuzk),
      t.cancel = .ok (u, b) →
      (∀ c ∈ cs, c.state = .running ∨ c.state = .paused ∨ c.state = .cancelled) →
      (CompositeTuzk.cancel t cs).2 = none) := by
  refine ⟨?_, ?_, ?_, ?_, ?_, ?_, ?_⟩
  · intro t cs e hp
    rw [CompositeTuzk.pause, hp]
  · intro t cs e hc
    rw [CompositeTuzk.cancel, hc]
  · intro c h1
    rw [Tuzk.cancel, h1]
  · intro c h1
    rcases h1 with h1 | h1 <;> rw [Tuzk.cancel, h1]
  · intro c h1
    constructor
    · rw [Tuzk.pause, if_neg (by simp [h1])]
    · rw [Tuzk.resume, if_neg (by simp [h1])]
  · intro t u b c cs htc hcc
    rw [CompositeTuzk.cancel, htc]
    rw [show cancelChildren (c :: cs) =
      (match c.cancel with
        | .ok (c1, _) =>
          (match cancelChildren cs with
            | (rest1, e) => (c1 :: rest1, e))
        | .error e => (c :: cs, some e)) from rfl, hcc]
  · intro t u b cs htc hcs
    rw [CompositeTuzk.cancel, htc]
    have := cancelChildren_none cs hcs
    rcases hcr : cancelChildren cs with ⟨rest1, e⟩
    rw [hcr] at this
    simpa using this

/-- Witness for C9 at concrete tasks: a failed composite leaves children
untouched, a cancelled child is idempotent, a successful child raises, and
a composite over running and cancelled children cancels cleanly. -/
theorem C9_composite_fanout_witness :
    CompositeTuzk.pause ⟨0, false, false, false, none, .pending, none⟩ [] =
        ((⟨0, false, false, false, none, .pending, none⟩, []), some .invalidState) ∧
      Tuzk.cancel ⟨0, false, true, true, some .cancelledE, .cancelled, none⟩ =
        .ok (⟨0, false, true, true, some .cancelledE, .cancelled, none⟩, true) ∧
      (CompositeTuzk.cancel c9comp
        [⟨0, false, true, true, some .cancelledE, .cancelled, none⟩]).2 = none :=
  ⟨C9_composite_fanout.1 ⟨0, false, false, false, none, .pending, none⟩ [] .invalidState
      (by decide),
    C9_composite_fanout.2.2.1 ⟨0, false, true, true, some .cancelledE, .cancelled, none⟩
      rfl,
    C9_composite_fanout.2.2.2.2.2.2 c9comp
      ⟨0, false, true, false, none, .running, none⟩ false
      [⟨0, false, true, true, some .cancelledE, .cancelled, none⟩]
      (by decide)
      (by intro c hc; cases hc with
          | head => exact Or.inr (Or.inr rfl)
          | tail _ h2 => cases h2)⟩

end TuzkSpec
